import Mathlib

set_option maxHeartbeats 1000000

/-!
Verification development for the block-discovery and decoration-reconciliation
engine `CMBlockMarkerHelperV2` (CodeMirror block marker helper of the
joplin-plugin-enhancement repository).

The TypeScript source is shallowly embedded: the document is a list of lines,
JavaScript `RegExp` objects are embedded together with their mutable
`lastIndex` search position (threaded explicitly), the CodeMirror decoration
store (text markers and line widgets) is an explicit state record, and the
fallible renderer callbacks return `Except`.
-/

namespace Enhancement

/-- A character position in the editor: line number and column (`{line, ch}`). -/
structure Pos where
  line : Int
  ch : Nat
deriving DecidableEq, Repr

/-- Shallow embedding of a JavaScript `RegExp` object.  `matchFrom s i` is the
pure matching function: the span `(start, stop)` of the earliest match of the
pattern in `s` beginning at or after position `i` (`none` when there is no
match).  `global` records whether the regexp carries a flag (`g`) that makes
`test` consume and update the object's persistent `lastIndex` position; the
`lastIndex` itself is threaded explicitly through the scan. -/
structure JSRegex where
  global : Bool
  matchFrom : String → Nat → Option (Nat × Nat)

/-- `RegExp.prototype.test` (ECMAScript semantics): on a non-global regexp it
searches from position 0 and leaves `lastIndex` alone; on a global regexp it
searches from `lastIndex`, setting `lastIndex` to the match end on success and
to 0 on failure.  Returns the boolean result and the new `lastIndex`. -/
def JSRegex.test (re : JSRegex) (s : String) (li : Nat) : Bool × Nat :=
  if re.global then
    match re.matchFrom s li with
    | some (_, e) => (true, e)
    | none => (false, 0)
  else ((re.matchFrom s 0).isSome, li)

/-- `String.prototype.match` (ECMAScript semantics), reduced to the first match
span, which is all the engine passes on.  A non-global regexp ignores
`lastIndex`; a global regexp collects all matches, leaving `lastIndex` at 0
when the internal iteration terminates on a failed exec. -/
def JSRegex.strMatch (re : JSRegex) (s : String) (li : Nat) :
    Option (Nat × Nat) × Nat :=
  if re.global then (re.matchFrom s 0, 0) else (re.matchFrom s 0, li)

/-- `editor.getLine(i)`, for a document given as its list of lines.  (Indices
outside the document do not occur on the paths exercised here; they default to
the empty string.) -/
def getLineI (doc : List String) (i : Int) : String :=
  if 0 ≤ i then doc.getD i.toNat "" else ""

/-- A discovered block: the element pushed onto `blockRangeList` by `process`.
The source names the fields `from`/`to`; they are renamed `fromLine`/`toLine`
here because `from` is a Lean keyword.  `beginMatch`/`endMatch` hold the
match data (reduced to the match span) produced by `line.match(...)`. -/
structure BlockRange where
  fromLine : Int
  toLine : Int
  beginMatch : Option (Nat × Nat)
  endMatch : Option (Nat × Nat)
deriving DecidableEq, Repr

/-- The mutable locals of `process`'s scan: the accumulated
`blockRangeList`, `meetBeginToken`, `prevBeginTokenLineNumber` (initialised to
-1), `beginMatch`, plus the persistent `lastIndex` positions of the two token
regexps. -/
structure ScanSt where
  blockRangeList : List BlockRange
  meetBeginToken : Bool
  prevBeginTokenLineNumber : Int
  beginMatchSt : Option (Nat × Nat)
  beginLI : Nat
  endLI : Nat
deriving Repr

/-- One iteration of the bounded scan loop of `process` (source lines
214-239), at line index `i`.  Note the JavaScript short-circuiting: the
begin-token regexp is only consulted when `!meetBeginToken`, the end-token
regexp only when `meetBeginToken`, and `line.match(blockEndTokenRegex)` is
only evaluated when the range is actually pushed (`i >= fromLine`). -/
def scanLine (doc : List String) (beginRe endRe : JSRegex) (fromLine : Nat)
    (st : ScanSt) (i : Nat) : ScanSt :=
  let line := getLineI doc i
  if !st.meetBeginToken then
    let t1 := beginRe.test line st.beginLI
    if t1.1 then
      let m1 := beginRe.strMatch line t1.2
      { st with beginMatchSt := m1.1, meetBeginToken := true,
                prevBeginTokenLineNumber := (i : Int), beginLI := m1.2 }
    else
      { st with beginLI := t1.2 }
  else
    let t2 := endRe.test line st.endLI
    if t2.1 then
      if fromLine ≤ i then
        let m2 := endRe.strMatch line t2.2
        { st with
            blockRangeList := st.blockRangeList ++
              [⟨st.prevBeginTokenLineNumber, (i : Int), st.beginMatchSt, m2.1⟩],
            meetBeginToken := false, prevBeginTokenLineNumber := -1,
            endLI := m2.2 }
      else
        { st with meetBeginToken := false, prevBeginTokenLineNumber := -1,
                  endLI := t2.2 }
    else
      { st with endLI := t2.2 }

/-- The bounded scan loop `for (let i = 0; i < toLine; i++)`, written as a
recursion on the number of remaining iterations, starting at line `i`. -/
def scanLines (doc : List String) (beginRe endRe : JSRegex) (fromLine : Nat)
    (st : ScanSt) (i : Nat) : Nat → ScanSt
  | 0 => st
  | count + 1 =>
      scanLines doc beginRe endRe fromLine
        (scanLine doc beginRe endRe fromLine st i) (i + 1) count

/-- The back-off loop of `process` (source lines 242-254): starting at
`viewport.to`, look line by line for the first line whose end-token test
succeeds; push the single range `{prevBeginTokenLineNumber, i}` and stop, or
run off the end of the document.  Returns the optional extra range and the
end regexp's final `lastIndex`. -/
def backoffGo (doc : List String) (endRe : JSRegex) (prevBegin : Int)
    (bm : Option (Nat × Nat)) (endLI : Nat) (i : Nat) :
    Nat → Option BlockRange × Nat
  | 0 => (none, endLI)
  | fuel + 1 =>
      let line := getLineI doc i
      let t := endRe.test line endLI
      if t.1 then
        let m := endRe.strMatch line t.2
        (some ⟨prevBegin, (i : Int), bm, m.1⟩, m.2)
      else
        backoffGo doc endRe prevBegin bm t.2 (i + 1) fuel

/-- The viewport returned by `editor.getViewport()`: visible line window
`[vfrom, vto)`. -/
structure Viewport where
  vfrom : Nat
  vto : Nat
deriving DecidableEq, Repr

/-- The block-discovery part of `CMBlockMarkerHelperV2.process` (source lines
196-255): compute the scan window (the whole document when `afterSetValue`,
the viewport otherwise), run the bounded scan from line 0, and, when the scan
ends still inside an open block, run the back-off loop — which starts at
`viewport.to` even in `afterSetValue` mode.  Returns `blockRangeList`
together with the final `lastIndex` of the begin and end regexps. -/
def scan (doc : List String) (beginRe endRe : JSRegex) (vp : Viewport)
    (afterSetValue : Bool) (beginLI endLI : Nat) :
    List BlockRange × Nat × Nat :=
  let fromLine := if afterSetValue then 0 else vp.vfrom
  let toLine := if afterSetValue then doc.length else vp.vto
  let st := scanLines doc beginRe endRe fromLine
    ⟨[], false, -1, none, beginLI, endLI⟩ 0 toLine
  if st.meetBeginToken then
    match backoffGo doc endRe st.prevBeginTokenLineNumber st.beginMatchSt
        st.endLI vp.vto (doc.length - vp.vto) with
    | (some r, li) => (st.blockRangeList ++ [r], st.beginLI, li)
    | (none, li) => (st.blockRangeList, st.beginLI, li)
  else (st.blockRangeList, st.beginLI, st.endLI)

/-- An anchored whole-line token pattern such as `/^<<<BEGIN$/`: it matches a
string exactly when the string equals the token.  Non-global, hence
stateless. -/
def lineTokenRegex (tok : String) : JSRegex :=
  { global := false
    matchFrom := fun s i =>
      if i = 0 ∧ s = tok then some (0, tok.length) else none }

/-- A global (`g`-flagged) single-character search pattern such as `/B/g`:
used to exhibit the persistent-`lastIndex` behaviour of `test`. -/
def charRegexG (c : Char) : JSRegex :=
  { global := true
    matchFrom := fun s i =>
      match (s.toList.drop i).findIdx? (· == c) with
      | some k => some (i + k, i + k + 1)
      | none => none }

/-- The six-line sample document of the specification. -/
def sampleDoc : List String := ["pre", "<<<BEGIN", "a", "b", "END>>>", "post"]

/-- Begin-token pattern matching the `<<<BEGIN` line of the sample. -/
def sampleBeginRe : JSRegex := lineTokenRegex "<<<BEGIN"

/-- End-token pattern matching the `END>>>` line of the sample. -/
def sampleEndRe : JSRegex := lineTokenRegex "END>>>"

example :
    (scan sampleDoc sampleBeginRe sampleEndRe ⟨0, 6⟩ true 0 0).1 =
      [⟨1, 4, some (0, 8), some (0, 6)⟩] := by decide

example :
    (scan sampleDoc sampleBeginRe sampleEndRe ⟨0, 2⟩ false 0 0).1 =
      [⟨1, 4, some (0, 8), some (0, 6)⟩] := by decide

/-! ## The editor decoration store and the reconciler `_markRanges` -/

/-- A node of rendered DOM content: either an element produced by a renderer
callback (abstracted to a value of `α`), or the edit-button element appended
by `setStyleAndLogical`. -/
inductive DomNode (α : Type) where
  | rendered : α → DomNode α
  | editButton : DomNode α
deriving DecidableEq, Repr

/-- A CodeMirror text marker (inline replacement decoration), as created by
`doc.markText`: its current span, its `className`, and its `replacedWith`
element.  Since the document never changes during a pass, `marker.find()`
always resolves to the stored span. -/
structure TextMarker (α : Type) where
  id : Nat
  mfrom : Pos
  mto : Pos
  className : String
  replacedWith : DomNode α
deriving DecidableEq, Repr

/-- A CodeMirror line widget, as created by `doc.addLineWidget`: the line it
is anchored at, its `className`, and the children of its `node` element. -/
structure LineWidget (α : Type) where
  id : Nat
  line : Int
  className : String
  node : List (DomNode α)
deriving DecidableEq, Repr

/-- The host editor state visible to the engine: the document lines, cursor,
selection (anchor/head), viewport, and the decoration store (markers and line
widgets, in creation order).  `nextId` supplies fresh decoration identities;
`muts` counts the DOM-mutating decoration operations performed so far
(marker/widget creation, clearing, and widget-content rewrites). -/
structure EditorState (α : Type) where
  doc : List String
  cursor : Pos
  selection : Option (Pos × Pos)
  viewport : Viewport
  markers : List (TextMarker α)
  lineWidgets : List (LineWidget α)
  nextId : Nat
  muts : Nat
deriving DecidableEq, Repr

variable {E α : Type}

/-- Strict lexicographic order on positions. -/
def Pos.lt (a b : Pos) : Bool :=
  a.line < b.line || (a.line == b.line && a.ch < b.ch)

/-- The decoration-store contents: the part of the editor state the
idempotence property compares (markers and widgets, not the bookkeeping
counters). -/
def decos (st : EditorState α) : List (TextMarker α) × List (LineWidget α) :=
  (st.markers, st.lineWidgets)

/-- `editor.findMarks(from, to)`: the markers whose span strictly overlaps
the query range (CodeMirror excludes markers merely abutting an endpoint). -/
def findMarks (st : EditorState α) (f t : Pos) : List (TextMarker α) :=
  st.markers.filter (fun m => Pos.lt f m.mto && Pos.lt m.mfrom t)

/-- Modelled from the spec: the helper `findLineWidgetAtLine` (imported from
`cm-utils`, which is not among the given sources) — "lookup of widgets at a
line" filtered by the given class name; returns the first such widget. -/
def findLineWidgetAtLine (st : EditorState α) (l : Int) (cls : String) :
    Option (LineWidget α) :=
  st.lineWidgets.find? (fun w => w.line == l && w.className == cls)

/-- Modelled from the spec: the helper `isCursorOutRange` (imported from
`cm-utils`, which is not among the given sources) — "`cursorOutOfRange`
(cursor outside `[fromLine, toLine]`)". -/
def isCursorOutRange (cursor f t : Pos) : Bool :=
  cursor.line < f.line || t.line < cursor.line

/-- Modelled from the spec: the helper `isRangeSelected` (imported from
`cm-utils`, which is not among the given sources) — "`selected` (current
selection overlaps `[fromLine, toLine]`)"; an empty selection (anchor equal
to head) selects nothing. -/
def isRangeSelected (f t : Pos) (sel : Option (Pos × Pos)) : Bool :=
  match sel with
  | none => false
  | some (a, h) =>
      !(a == h) && decide (min a.line h.line ≤ t.line) &&
        decide (f.line ≤ max a.line h.line)

/-- `marker.clear()`: remove the marker with the given identity, counting a
DOM mutation when it was present (clearing an already-cleared marker is a
no-op in CodeMirror). -/
def clearMarkerById (st : EditorState α) (i : Nat) : EditorState α :=
  if st.markers.any (·.id == i) then
    { st with markers := st.markers.filter (fun m => m.id != i),
              muts := st.muts + 1 }
  else st

/-- `lineWidget.clear()`: remove the widget with the given identity. -/
def clearWidgetById (st : EditorState α) (i : Nat) : EditorState α :=
  if st.lineWidgets.any (·.id == i) then
    { st with lineWidgets := st.lineWidgets.filter (fun w => w.id != i),
              muts := st.muts + 1 }
  else st

/-- `doc.markText(from, to, {replacedWith, className, ...})`. -/
def markText (st : EditorState α) (f t : Pos) (cls : String)
    (el : DomNode α) : EditorState α :=
  { st with markers := st.markers ++ [⟨st.nextId, f, t, cls, el⟩],
            nextId := st.nextId + 1, muts := st.muts + 1 }

/-- `createLineWidgetForMarker`: `doc.addLineWidget(line, element,
{className: lineWidgetClassName})`. -/
def addLineWidget (st : EditorState α) (l : Int) (node : List (DomNode α))
    (cls : String) : EditorState α :=
  { st with lineWidgets := st.lineWidgets ++ [⟨st.nextId, l, cls, node⟩],
            nextId := st.nextId + 1, muts := st.muts + 1 }

/-- In-place rewrite of a widget's DOM children (`node.innerHTML = ''` /
`node.appendChild(...)`). -/
def updateWidgetNode (st : EditorState α) (i : Nat)
    (node : List (DomNode α)) : EditorState α :=
  { st with lineWidgets := st.lineWidgets.map
              (fun w => if w.id == i then { w with node := node } else w),
            muts := st.muts + 1 }

/-- The constructor arguments of `CMBlockMarkerHelperV2` that `process` and
`_markRanges` consult.  (`blockRegexp` is stored by the source constructor
but never read, and is omitted.)  The renderer callbacks may throw, which is
modelled by `Except`. -/
structure Config (E α : Type) where
  blockStartTokenRegexp : JSRegex
  blockEndTokenRegex : JSRegex
  renderer : Option (Nat × Nat) → Option (Nat × Nat) → String → Int → Int →
    Except E α
  spanRenderer : Unit → Except E α
  MARKER_CLASS_NAME : String
  clearOnClick : Bool
  renderWhenEditing : Bool

/-- `this.lineWidgetClassName = this.MARKER_CLASS_NAME + '-line-widget'`. -/
def Config.lineWidgetClassName (cfg : Config E α) : String :=
  cfg.MARKER_CLASS_NAME ++ "-line-widget"

/-- The interior lines of a block: lines `from.line + 1` through
`to.line - 1`. -/
def blockContentLines (doc : List String) (fl tl : Int) : List String :=
  (List.range (tl - fl - 1).toNat).map (fun k => getLineI doc (fl + 1 + k))

/-- One step of the `findMarks(from, to).find(marker => ...)` iteration of
`_markRanges` (source lines 280-298).  `Array.prototype.find` with a
side-effecting callback that returns `undefined` visits every element, so the
whole list is folded through.  The accumulator carries the store plus the
mutable locals `existingMarker` and `existingLineWidget`; note that
`existingLineWidget` is overwritten (possibly with `undefined`) at every
class-matching marker, while `existingMarker` is only ever assigned. -/
def sweepStep (cfg : Config E α) (f t : Pos)
    (acc : EditorState α × Option (TextMarker α) × Option (LineWidget α))
    (m : TextMarker α) :
    EditorState α × Option (TextMarker α) × Option (LineWidget α) :=
  let st := acc.1
  let exM := acc.2.1
  if m.className == cfg.MARKER_CLASS_NAME then
    let exW2 := findLineWidgetAtLine st t.line cfg.lineWidgetClassName
    let exM2 := if exW2.isSome then some m else exM
    if m.mfrom.line != f.line || m.mto.line != t.line then
      let st1 := clearMarkerById st m.id
      let st2 := match exW2 with
                 | some w => clearWidgetById st1 w.id
                 | none => st1
      (st2, exM2, exW2)
    else if exM2.isNone then
      (clearMarkerById st m.id, exM2, exW2)
    else
      (st, exM2, exW2)
  else acc

/-- The existing-decoration check of `_markRanges`: fold `sweepStep` over the
markers returned by `findMarks(from, to)` (a list computed once, before any
of the clears run). -/
def sweep (cfg : Config E α) (st : EditorState α) (f t : Pos) :
    EditorState α × Option (TextMarker α) × Option (LineWidget α) :=
  (findMarks st f t).foldl (sweepStep cfg f t) (st, none, none)

/-- The mid-block widget sweep of `_markRanges` (source lines 300-306): for
each line in `[from.line, to.line)`, clear the first engine-class line widget
found there. -/
def strayClearGo (cfg : Config E α) (st : EditorState α) (l : Int) :
    Nat → EditorState α
  | 0 => st
  | n + 1 =>
      let st1 := match findLineWidgetAtLine st l cfg.lineWidgetClassName with
                 | some w => clearWidgetById st w.id
                 | none => st
      strayClearGo cfg st1 (l + 1) n

/-- `for (let i = from.line; i < to.line; i++) { ... }`. -/
def strayClear (cfg : Config E α) (st : EditorState α) (fl tl : Int) :
    EditorState α :=
  strayClearGo cfg st fl (tl - fl).toNat

/-- The body of `_markRanges`'s per-range loop (source lines 270-380).
Returns the updated store and `some e` when a renderer callback threw `e`
(aborting the pass at exactly the point the source would).  Faithful ordering
notes: in the collapse branch `doc.markText` runs *before* the block-widget
renderer, and in the editing branch the existing widget's content is emptied
*before* the renderer runs, so a throwing renderer leaves those partial
effects committed.  In the selected branch, `existingLineWidget.clear()` is
only reachable with `existingMarker` set, in which case the sweep recorded a
widget reference alongside it. -/
def rFrom (r : BlockRange) : Pos := ⟨r.fromLine, 0⟩

/-- `to = {line: blockRange.to, ch: editor.getLine(blockRange.to).length}`. -/
def rTo (doc : List String) (r : BlockRange) : Pos :=
  ⟨r.toLine, (getLineI doc r.toLine).length⟩

/-- The interior content handed to the renderer callbacks:
`blockContentLines.join('\n')`. -/
def blockContent (doc : List String) (r : BlockRange) : String :=
  String.intercalate "\n" (blockContentLines doc r.fromLine r.toLine)

/-- The creation part of the cursor-outside branch of `_markRanges` (source
lines 330-357): build the span element, commit the inline marker with
`doc.markText`, then render and attach the block widget (whose wrapper also
receives the edit button via `setStyleAndLogical`).  `st3` is the state
after the pre-clear of any widget at `to.line`. -/
def collapseBranch (cfg : Config E α) (st3 : EditorState α) (r : BlockRange)
    (f t : Pos) (content : String) : EditorState α × Option E :=
  match cfg.spanRenderer () with
  | Except.error e => (st3, some e)
  | Except.ok spanEl =>
      let st4 := markText st3 f t cfg.MARKER_CLASS_NAME
        (DomNode.rendered spanEl)
      match cfg.renderer r.beginMatch r.endMatch content f.line t.line with
      | Except.error e => (st4, some e)
      | Except.ok el =>
          (addLineWidget st4 t.line
            [DomNode.rendered el, DomNode.editButton]
            cfg.lineWidgetClassName, none)

/-- The widget handling of the cursor-inside branch of `_markRanges` (source
lines 363-378), after any existing marker was cleared: when
`renderWhenEditing`, rebuild the existing widget's content in place
(`innerHTML = ''` then append) or create a fresh widget (without the edit
button); otherwise clear any existing widget. -/
def editingTail (cfg : Config E α) (st3 : EditorState α) (r : BlockRange)
    (f t : Pos) (content : String) : EditorState α × Option E :=
  let exW2 := findLineWidgetAtLine st3 t.line cfg.lineWidgetClassName
  if cfg.renderWhenEditing then
    match exW2 with
    | some w =>
        let st4 := updateWidgetNode st3 w.id []
        match cfg.renderer r.beginMatch r.endMatch content f.line t.line with
        | Except.error e => (st4, some e)
        | Except.ok el =>
            (updateWidgetNode st4 w.id [DomNode.rendered el], none)
    | none =>
        match cfg.renderer r.beginMatch r.endMatch content f.line t.line with
        | Except.error e => (st3, some e)
        | Except.ok el =>
            (addLineWidget st3 t.line [DomNode.rendered el]
              cfg.lineWidgetClassName, none)
  else
    match exW2 with
    | some w => (clearWidgetById st3 w.id, none)
    | none => (st3, none)

def markRange (cfg : Config E α) (st : EditorState α) (r : BlockRange) :
    EditorState α × Option E :=
  let f := rFrom r
  let t := rTo st.doc r
  let cursorOutRange := isCursorOutRange st.cursor f t
  let selected := isRangeSelected f t st.selection
  let swept := sweep cfg st f t
  let st1 := swept.1
  let exM := swept.2.1
  let exW := swept.2.2
  let st2 := strayClear cfg st1 f.line t.line
  if selected && cursorOutRange then
    match exM with
    | some m =>
        let st3 := clearMarkerById st2 m.id
        let st4 := match exW with
                   | some w => clearWidgetById st3 w.id
                   | none => st3
        (st4, none)
    | none => (st2, none)
  else
    let content := blockContent st.doc r
    if cursorOutRange then
      match exM with
      | some _ => (st2, none)
      | none =>
          let st3 :=
            match findLineWidgetAtLine st2 t.line cfg.lineWidgetClassName with
            | some w => clearWidgetById st2 w.id
            | none => st2
          collapseBranch cfg st3 r f t content
    else
      let st3 := match exM with
                 | some m => clearMarkerById st2 m.id
                 | none => st2
      editingTail cfg st3 r f t content

/-- `_markRanges`: process the discovered ranges in order; an uncaught
renderer exception unwinds the loop, carrying the store as mutated so far. -/
def markRanges (cfg : Config E α) :
    EditorState α → List BlockRange → EditorState α × Option E
  | st, [] => (st, none)
  | st, r :: rs =>
      match markRange cfg st r with
      | (st1, none) => markRanges cfg st1 rs
      | (st1, some e) => (st1, some e)

/-- `CMBlockMarkerHelperV2.process(afterSetValue)`: scan, then — only when at
least one range was discovered — reconcile.  Returns the editor state, the
two regexps' final `lastIndex` values, and the uncaught renderer exception,
if any. -/
def process (cfg : Config E α) (st : EditorState α) (beginLI endLI : Nat)
    (afterSetValue : Bool) : EditorState α × Nat × Nat × Option E :=
  match scan st.doc cfg.blockStartTokenRegexp cfg.blockEndTokenRegex
      st.viewport afterSetValue beginLI endLI with
  | (ranges, liB, liE) =>
      if ranges.isEmpty then (st, liB, liE, none)
      else
        match markRanges cfg st ranges with
        | (st1, err) => (st1, liB, liE, err)

/-! ## Concrete sample configuration used by the example-based claims -/

/-- A configuration over the sample token patterns whose block renderer
returns the interior-content string it was handed (so the store records
exactly what was passed to the renderer) and whose span renderer returns
`"span"`. -/
def captureCfg (rwe : Bool) : Config String String :=
  { blockStartTokenRegexp := sampleBeginRe
    blockEndTokenRegex := sampleEndRe
    renderer := fun _ _ c _ _ => Except.ok c
    spanRenderer := fun _ => Except.ok "span"
    MARKER_CLASS_NAME := "blk"
    clearOnClick := true
    renderWhenEditing := rwe }

/-- A clean editor over the sample document with the given cursor position,
no selection, full-document viewport, and an empty decoration store. -/
def cleanSampleState (cur : Pos) : EditorState String :=
  { doc := sampleDoc, cursor := cur, selection := none, viewport := ⟨0, 6⟩
    markers := [], lineWidgets := [], nextId := 0, muts := 0 }

/-! ## C1: full-document discovery of the sample block -/

/-- C1: on the six-line document `["pre", "<<<BEGIN", "a", "b", "END>>>",
"post"]`, with token patterns matching the BEGIN/END lines, a full-document
pass discovers exactly one BlockRange with `fromLine` 1 and `toLine` 4; the
interior content (the interior lines joined by newline) is `"a\nb"`, and
this is exactly the string handed to the block renderer — with a
content-capturing renderer, the widget committed by `process` records
`"a\nb"`. -/
theorem C1_full_document_discovery :
    (scan sampleDoc sampleBeginRe sampleEndRe ⟨0, 6⟩ true 0 0).1 =
      [⟨1, 4, some (0, 8), some (0, 6)⟩] ∧
    String.intercalate "\n" (blockContentLines sampleDoc 1 4) = "a\nb" ∧
    (process (captureCfg true) (cleanSampleState ⟨5, 0⟩) 0 0 true).1.lineWidgets =
      [⟨1, 4, "blk-line-widget",
        [DomNode.rendered "a\nb", DomNode.editButton]⟩] := by
  decide

/-! ## C8: statefulness of the token patterns -/

/-- On a flagless (non-global) regexp, `test` searches from position 0 and
leaves `lastIndex` untouched. -/
theorem JSRegex.test_flagless {re : JSRegex} (h : re.global = false)
    (s : String) (li : Nat) :
    re.test s li = ((re.matchFrom s 0).isSome, li) := by
  simp [JSRegex.test, h]

/-- On a flagless (non-global) regexp, `String.match` searches from position
0 and leaves `lastIndex` untouched. -/
theorem JSRegex.strMatch_flagless {re : JSRegex} (h : re.global = false)
    (s : String) (li : Nat) :
    re.strMatch s li = (re.matchFrom s 0, li) := by
  simp [JSRegex.strMatch, h]

/-- With flagless patterns the `lastIndex` fields of the scan state are
inert: they influence nothing and pass through one scan-loop iteration
unchanged. -/
theorem scanLine_flagless_li {doc : List String} {bre ere : JSRegex}
    (hb : bre.global = false) (he : ere.global = false) (fl : Nat)
    (st : ScanSt) (a b : Nat) (i : Nat) :
    scanLine doc bre ere fl { st with beginLI := a, endLI := b } i =
      { scanLine doc bre ere fl st i with beginLI := a, endLI := b } := by
  simp only [scanLine, JSRegex.test_flagless hb, JSRegex.test_flagless he,
    JSRegex.strMatch_flagless hb, JSRegex.strMatch_flagless he]
  by_cases hm : st.meetBeginToken
  · simp only [hm]
    by_cases ht : (ere.matchFrom (getLineI doc i) 0).isSome
    · by_cases hfl : fl ≤ i <;> simp [ht, hfl]
    · simp [ht]
  · simp only [hm]
    by_cases ht : (bre.matchFrom (getLineI doc i) 0).isSome <;> simp [ht]

/-- `lastIndex`-inertness of the whole bounded scan loop under flagless
patterns. -/
theorem scanLines_flagless_li {doc : List String} {bre ere : JSRegex}
    (hb : bre.global = false) (he : ere.global = false) (fl : Nat) :
    ∀ (n i : Nat) (st : ScanSt) (a b : Nat),
      scanLines doc bre ere fl { st with beginLI := a, endLI := b } i n =
        { scanLines doc bre ere fl st i n with beginLI := a, endLI := b }
  | 0, _, _, _, _ => rfl
  | n + 1, i, st, a, b => by
      simp only [scanLines, scanLine_flagless_li hb he fl st a b i]
      exact scanLines_flagless_li hb he fl n (i + 1) _ a b

/-- `lastIndex`-inertness of the back-off loop under a flagless end
pattern: the discovered range does not depend on the incoming `lastIndex`,
and the `lastIndex` comes back out unchanged. -/
theorem backoffGo_flagless {doc : List String} {ere : JSRegex}
    (he : ere.global = false) (pb : Int) (bm : Option (Nat × Nat)) :
    ∀ (n k : Nat) (li : Nat),
      backoffGo doc ere pb bm li k n =
        ((backoffGo doc ere pb bm 0 k n).1, li)
  | 0, _, _ => rfl
  | n + 1, k, li => by
      simp only [backoffGo, JSRegex.test_flagless he,
        JSRegex.strMatch_flagless he]
      split
      · simp
      · rw [backoffGo_flagless he pb bm n (k + 1) li,
          backoffGo_flagless he pb bm n (k + 1) 0]

/-- C8 (amended): when both token patterns are flagless — carrying no
persistent search position — the scan's block-range list depends only on the
document and window, and the `lastIndex` values pass through unchanged; in
particular two consecutive runs of `process` over the same document produce
the same block-range list.  (As the counterexample shows, the source resets
nothing itself, so this holds only for stateless patterns.) -/
theorem C8_flagless_scan_stateless {doc : List String} {bre ere : JSRegex}
    (hb : bre.global = false) (he : ere.global = false) (vp : Viewport)
    (asv : Bool) (liB liE liB' liE' : Nat) :
    (scan doc bre ere vp asv liB liE).1 =
      (scan doc bre ere vp asv liB' liE').1 ∧
    (scan doc bre ere vp asv liB liE).2 = (liB, liE) := by
  have key : ∀ (x y : Nat),
      scan doc bre ere vp asv x y = ((scan doc bre ere vp asv 0 0).1, x, y) := by
    intro x y
    show scan doc bre ere vp asv x y = _
    simp only [scan]
    rw [show (⟨[], false, -1, none, x, y⟩ : ScanSt) =
          { (⟨[], false, -1, none, 0, 0⟩ : ScanSt) with
              beginLI := x, endLI := y } from rfl,
        scanLines_flagless_li hb he _]
    rw [show (⟨[], false, -1, none, 0, 0⟩ : ScanSt) =
          { (⟨[], false, -1, none, 0, 0⟩ : ScanSt) with
              beginLI := 0, endLI := 0 } from rfl,
        scanLines_flagless_li hb he _]
    set st0 := scanLines doc bre ere (if asv then 0 else vp.vfrom)
      (⟨[], false, -1, none, 0, 0⟩ : ScanSt) 0
      (if asv then doc.length else vp.vto) with hst0
    simp only []
    by_cases hm : st0.meetBeginToken <;> simp [hm]
    · rw [backoffGo_flagless he _ _ _ _ y, backoffGo_flagless he _ _ _ _ 0]
      rcases (backoffGo doc ere st0.prevBeginTokenLineNumber st0.beginMatchSt
        0 vp.vto (doc.length - vp.vto)).1 with _ | r <;> simp
  refine ⟨?_, by rw [key liB liE]⟩
  rw [key liB liE, key liB' liE']

/-- C8 (witness): statelessness instantiated at the sample patterns: with
arbitrary incoming `lastIndex` values 5 and 7 the scan result equals the one
from reset state, and the values pass through unchanged. -/
theorem C8_flagless_scan_stateless_witness :
    (scan sampleDoc sampleBeginRe sampleEndRe ⟨0, 6⟩ true 5 7).1 =
      (scan sampleDoc sampleBeginRe sampleEndRe ⟨0, 6⟩ true 0 0).1 ∧
    (scan sampleDoc sampleBeginRe sampleEndRe ⟨0, 6⟩ true 5 7).2 = (5, 7) :=
  C8_flagless_scan_stateless rfl rfl ⟨0, 6⟩ true 5 7 0 0

/-- C8 (counterexample): the engine never resets a pattern's `lastIndex`.
With the global pattern `/B/g` whose `lastIndex` was left at 1 by prior
matching history, a run of the scan over `["B", "E"]` finds nothing (the
begin test resumes at position 1 and misses the `B`, resetting `lastIndex`
to 0), while the immediately following run — same document, cursor and
selection — finds the block `{0, 1}`: two consecutive runs produce
different block-range lists, refuting the claim that matching state is
reset before each use. -/
theorem C8_counterexample_global_pattern :
    (scan ["B", "E"] (charRegexG 'B') (lineTokenRegex "E") ⟨0, 2⟩ false 1 0).1
      = [] ∧
    (scan ["B", "E"] (charRegexG 'B') (lineTokenRegex "E") ⟨0, 2⟩ false 1 0).2
      = (0, 0) ∧
    (scan ["B", "E"] (charRegexG 'B') (lineTokenRegex "E") ⟨0, 2⟩ false 0 0).1
      = [⟨0, 1, some (0, 1), some (0, 1)⟩] := by
  decide

/-! ## C10: structural invariants of the bounded scan's output -/

/-- Induction invariant of the bounded scan at line index `i`: the emitted
ranges are strictly increasing and well-ordered below `i`, and while inside
an open block the open line is a genuine line index below `i` and above
every emitted range. -/
def ScanInv (i : Nat) (st : ScanSt) : Prop :=
  st.blockRangeList.Pairwise (fun a b => a.toLine < b.fromLine) ∧
  (∀ r ∈ st.blockRangeList, r.fromLine < r.toLine ∧ r.toLine < (i : Int)) ∧
  (st.meetBeginToken = true →
    0 ≤ st.prevBeginTokenLineNumber ∧
    st.prevBeginTokenLineNumber < (i : Int) ∧
    ∀ r ∈ st.blockRangeList, r.toLine < st.prevBeginTokenLineNumber)

theorem scanInv_step (doc : List String) (bre ere : JSRegex) (fl : Nat)
    (i : Nat) (st : ScanSt) (h : ScanInv i st) :
    ScanInv (i + 1) (scanLine doc bre ere fl st i) := by
  obtain ⟨hp, hall, hopen⟩ := h
  have hlt : (i : Int) < ((i + 1 : Nat) : Int) := by
    exact_mod_cast Nat.lt_succ_self i
  have hall' : ∀ r ∈ st.blockRangeList,
      r.fromLine < r.toLine ∧ r.toLine < ((i + 1 : Nat) : Int) :=
    fun r hr => ⟨(hall r hr).1, lt_trans (hall r hr).2 hlt⟩
  unfold ScanInv scanLine
  cases hm : st.meetBeginToken
  · cases ht : (bre.test (getLineI doc (i : Int)) st.beginLI).1
    · simp only [hm, ht, Bool.not_false, if_true, Bool.false_eq_true,
        if_false]
      exact ⟨hp, hall', fun hc => by simp at hc⟩
    · simp only [hm, ht, Bool.not_false, if_true]
      exact ⟨hp, hall',
        fun _ => ⟨Int.ofNat_nonneg i, hlt, fun r hr => (hall r hr).2⟩⟩
  · obtain ⟨hpb0, hpbi, hpbr⟩ := hopen hm
    cases ht : (ere.test (getLineI doc (i : Int)) st.endLI).1
    · simp only [hm, ht, Bool.not_true, Bool.false_eq_true, if_false]
      exact ⟨hp, hall', fun _ => ⟨hpb0, lt_trans hpbi hlt, hpbr⟩⟩
    · by_cases hfl : fl ≤ i
      · simp only [hm, ht, hfl, Bool.not_true, Bool.false_eq_true, if_false,
          if_true]
        refine ⟨?_, ?_, fun hc => by simp at hc⟩
        · rw [List.pairwise_append]
          refine ⟨hp, List.pairwise_singleton _ _, fun a ha b hb => ?_⟩
          rw [List.mem_singleton] at hb
          subst hb
          exact hpbr a ha
        · intro r hr
          rcases List.mem_append.1 hr with h1 | h1
          · exact hall' r h1
          · rw [List.mem_singleton] at h1
            subst h1
            exact ⟨hpbi, hlt⟩
      · simp only [hm, ht, hfl, Bool.not_true, Bool.false_eq_true, if_false,
          if_true]
        exact ⟨hp, hall', fun hc => by simp at hc⟩

theorem scanInv_steps (doc : List String) (bre ere : JSRegex) (fl : Nat) :
    ∀ (n i : Nat) (st : ScanSt), ScanInv i st →
      ScanInv (i + n) (scanLines doc bre ere fl st i n)
  | 0, i, st, h => h
  | n + 1, i, st, h => by
      have := scanInv_steps doc bre ere fl n (i + 1)
        (scanLine doc bre ere fl st i) (scanInv_step doc bre ere fl i st h)
      simpa [scanLines, Nat.add_comm, Nat.add_assoc, Nat.add_left_comm] using this

/-- C10: for every document, window, and token patterns — whatever matching
state they carry — the ranges emitted by the main bounded scan are strictly
increasing (each `fromLine` strictly exceeds the previous `toLine`, hence
pairwise disjoint) and every emitted range satisfies `fromLine < toLine`. -/
theorem C10_scan_list_invariants (doc : List String) (bre ere : JSRegex)
    (fromLine toLine liB liE : Nat) :
    ((scanLines doc bre ere fromLine ⟨[], false, -1, none, liB, liE⟩ 0
        toLine).blockRangeList).Pairwise (fun a b => a.toLine < b.fromLine) ∧
    ∀ r ∈ (scanLines doc bre ere fromLine ⟨[], false, -1, none, liB, liE⟩ 0
        toLine).blockRangeList, r.fromLine < r.toLine := by
  have h0 : ScanInv 0 (⟨[], false, -1, none, liB, liE⟩ : ScanSt) := by
    refine ⟨List.Pairwise.nil, by simp, ?_⟩
    intro h; exact absurd h (by simp)
  have := scanInv_steps doc bre ere fromLine toLine 0 _ h0
  exact ⟨this.1, fun r hr => (this.2.1 r hr).1⟩

/-- C10 (witness): the invariants instantiated on the sample document with a
full window. -/
theorem C10_scan_list_invariants_witness :
    ((scanLines sampleDoc sampleBeginRe sampleEndRe 0
        ⟨[], false, -1, none, 0, 0⟩ 0 6).blockRangeList).Pairwise
      (fun a b => a.toLine < b.fromLine) ∧
    ∀ r ∈ (scanLines sampleDoc sampleBeginRe sampleEndRe 0
        ⟨[], false, -1, none, 0, 0⟩ 0 6).blockRangeList,
      r.fromLine < r.toLine :=
  C10_scan_list_invariants sampleDoc sampleBeginRe sampleEndRe 0 6 0 0

/-! ## C7: the scan starts at line 0; the window start only gates emission -/

/-- The emission guard of the windowed scan, as a list operation: keep the
ranges whose end line is at or after the window start. -/
def windowFilter (fl : Nat) (l : List BlockRange) : List BlockRange :=
  l.filter (fun r => (fl : Int) ≤ r.toLine)

theorem scanLine_window_filter {doc : List String} {bre ere : JSRegex}
    (hb : bre.global = false) (he : ere.global = false) (fromLine : Nat)
    (st : ScanSt) (i : Nat) :
    scanLine doc bre ere fromLine { st with blockRangeList := windowFilter fromLine st.blockRangeList } i =
      { scanLine doc bre ere 0 st i with blockRangeList := windowFilter fromLine (scanLine doc bre ere 0 st i).blockRangeList } := by
  simp only [scanLine, windowFilter, JSRegex.test_flagless hb, JSRegex.test_flagless he,
    JSRegex.strMatch_flagless hb, JSRegex.strMatch_flagless he]
  by_cases hm : st.meetBeginToken
  · simp only [hm]
    by_cases ht : (ere.matchFrom (getLineI doc i) 0).isSome
    · by_cases hfl : fromLine ≤ i
      · simp [ht, hfl, List.filter_append, Int.ofNat_le.2 hfl]
      · have : ¬ ((fromLine : Int) ≤ (i : Int)) := fun hc => hfl (Int.ofNat_le.1 hc)
        simp [ht, hfl, List.filter_append, this]
    · simp [ht]
  · simp only [hm]
    by_cases ht : (bre.matchFrom (getLineI doc i) 0).isSome <;> simp [ht]

theorem scanLines_window_filter {doc : List String} {bre ere : JSRegex}
    (hb : bre.global = false) (he : ere.global = false) (fromLine : Nat) :
    ∀ (n i : Nat) (st : ScanSt),
      scanLines doc bre ere fromLine { st with blockRangeList := windowFilter fromLine st.blockRangeList } i n =
        { scanLines doc bre ere 0 st i n with blockRangeList := windowFilter fromLine (scanLines doc bre ere 0 st i n).blockRangeList }
  | 0, _, _ => rfl
  | n + 1, i, st => by
      simp only [scanLines, scanLine_window_filter hb he fromLine st i]
      exact scanLines_window_filter hb he fromLine n (i + 1) _

/-- C7: with stateless token patterns, the bounded scan over a window
`[fromLine, toLine)` always walks the document from line 0 tracking only the
inside-a-block state, and behaves exactly like the full scan from line 0
except that a closed pair is emitted only when its end line is at or after
the window start — pairs closing above the window start are not emitted but
leave the scanner in the identical state (all non-list state components
agree with the full scan's). -/
theorem C7_scan_from_zero_filter {doc : List String} {bre ere : JSRegex}
    (hb : bre.global = false) (he : ere.global = false)
    (fromLine toLine liB liE : Nat) :
    scanLines doc bre ere fromLine ⟨[], false, -1, none, liB, liE⟩ 0 toLine =
      { scanLines doc bre ere 0 ⟨[], false, -1, none, liB, liE⟩ 0 toLine with blockRangeList := windowFilter fromLine (scanLines doc bre ere 0 ⟨[], false, -1, none, liB, liE⟩ 0 toLine).blockRangeList } := by
  have := @scanLines_window_filter doc bre ere hb he fromLine toLine 0
    (⟨[], false, -1, none, liB, liE⟩ : ScanSt)
  simpa [windowFilter] using this

/-- C7 (witness): the window-start filter instantiated on the sample
document with window `[2, 6)`: the block `{1, 4}` closes at line 4 ≥ 2, so
it is emitted there exactly as in the full scan. -/
theorem C7_scan_from_zero_filter_witness :
    scanLines sampleDoc sampleBeginRe sampleEndRe 2
        ⟨[], false, -1, none, 0, 0⟩ 0 6 =
      { scanLines sampleDoc sampleBeginRe sampleEndRe 0 ⟨[], false, -1, none, 0, 0⟩ 0 6 with blockRangeList := windowFilter 2 (scanLines sampleDoc sampleBeginRe sampleEndRe 0 ⟨[], false, -1, none, 0, 0⟩ 0 6).blockRangeList } :=
  C7_scan_from_zero_filter rfl rfl 2 6 0 0

/-! ## C3: the back-off continuation past the window -/

/-- The first line index in `[k, k + n)` whose line the end pattern
matches (pure, position-0 matching). -/
def firstEndIdx (doc : List String) (ere : JSRegex) (k n : Nat) : Option Nat :=
  (List.range' k n).find? (fun j => (ere.matchFrom (getLineI doc j) 0).isSome)

/-- The back-off loop finds exactly the first end-matching line at or after
its start line (under a flagless end pattern), regardless of the incoming
`lastIndex`. -/
theorem backoffGo_characterization {doc : List String} {ere : JSRegex}
    (he : ere.global = false) (pb : Int) (bm : Option (Nat × Nat)) :
    ∀ (n k li : Nat),
      (backoffGo doc ere pb bm li k n).1 =
        (firstEndIdx doc ere k n).map
          (fun j => ⟨pb, (j : Int), bm, ere.matchFrom (getLineI doc j) 0⟩)
  | 0, _, _ => rfl
  | n + 1, k, li => by
      simp only [backoffGo, JSRegex.test_flagless he,
        JSRegex.strMatch_flagless he, firstEndIdx, List.range'_succ,
        List.find?_cons]
      by_cases ht : (ere.matchFrom (getLineI doc k) 0).isSome
      · simp [ht]
      · simp only [ht, if_false, Bool.false_eq_true]
        simpa [firstEndIdx] using
          backoffGo_characterization he pb bm n (k + 1) li

/-- C3 (amended): in viewport mode, when the bounded scan over
`[vfrom, vto)` ends still inside an open block, the scanner continues from
the window's end line `vto`, line by line, and emits exactly one additional
range at the first end-matching line when one exists before the document
ends, and none otherwise.  (The continuation start is the raw
`viewport.to`; as the counterexample shows, in full-document mode this lies
inside the already-scanned window rather than past it.) -/
theorem C3_viewport_backoff {doc : List String} {bre ere : JSRegex}
    (hb : bre.global = false) (he : ere.global = false) (vp : Viewport)
    (liB liE : Nat)
    (hopen : (scanLines doc bre ere vp.vfrom
        ⟨[], false, -1, none, liB, liE⟩ 0 vp.vto).meetBeginToken = true) :
    (scan doc bre ere vp false liB liE).1 =
      (scanLines doc bre ere vp.vfrom ⟨[], false, -1, none, liB, liE⟩ 0
          vp.vto).blockRangeList ++
      ((firstEndIdx doc ere vp.vto (doc.length - vp.vto)).map
        (fun j =>
          ⟨(scanLines doc bre ere vp.vfrom ⟨[], false, -1, none, liB, liE⟩ 0
              vp.vto).prevBeginTokenLineNumber, (j : Int),
            (scanLines doc bre ere vp.vfrom ⟨[], false, -1, none, liB, liE⟩ 0
              vp.vto).beginMatchSt,
            ere.matchFrom (getLineI doc j) 0⟩)).toList := by
  simp only [scan, Bool.false_eq_true, if_false, hopen, if_true]
  set st := scanLines doc bre ere vp.vfrom
    (⟨[], false, -1, none, liB, liE⟩ : ScanSt) 0 vp.vto with hst
  have hchar := @backoffGo_characterization doc ere he
    st.prevBeginTokenLineNumber st.beginMatchSt (doc.length - vp.vto) vp.vto
    st.endLI
  rcases hbo : backoffGo doc ere st.prevBeginTokenLineNumber st.beginMatchSt
      st.endLI vp.vto (doc.length - vp.vto) with ⟨r?, li⟩
  rw [hbo] at hchar
  rcases r? with _ | r
  · simp only []
    rw [← hchar]
    simp
  · simp only []
    rw [← hchar]
    simp

/-- C3 (witness): with viewport `[0, 2)` over the sample document, the
bounded scan ends open at line 1 and the continuation discovers the range
`{1, 4}`. -/
theorem C3_viewport_backoff_witness :
    (scanLines sampleDoc sampleBeginRe sampleEndRe 0
        ⟨[], false, -1, none, 0, 0⟩ 0 2).meetBeginToken = true ∧
    (scan sampleDoc sampleBeginRe sampleEndRe ⟨0, 2⟩ false 0 0).1 =
      [⟨1, 4, some (0, 8), some (0, 6)⟩] :=
  ⟨by decide,
    by
      have := @C3_viewport_backoff sampleDoc sampleBeginRe sampleEndRe
        rfl rfl ⟨0, 2⟩ 0 0 (by decide)
      rw [this]; decide⟩

/-- C3 (counterexample): in full-document mode the continuation does cover
extra lines.  With viewport `[0, 2)` and document
`["x", "y", "END>>>", "<<<BEGIN", "z"]`, the full-window bounded scan (all 5
lines) emits nothing, yet `process`'s continuation — which starts at the raw
`viewport.to = 2`, inside the already-scanned window — emits the additional
inverted range `{3, 2}`, refuting the claim that in full-document mode the
continuation covers no extra lines. -/
theorem C3_counterexample_fulldoc_backoff :
    (scan ["x", "y", "END>>>", "<<<BEGIN", "z"] sampleBeginRe sampleEndRe
        ⟨0, 2⟩ true 0 0).1 = [⟨3, 2, some (0, 8), some (0, 6)⟩] ∧
    (scanLines ["x", "y", "END>>>", "<<<BEGIN", "z"] sampleBeginRe
        sampleEndRe 0 ⟨[], false, -1, none, 0, 0⟩ 0 5).blockRangeList
      = [] := by
  decide

/-! ## Reconciler helper lemmas -/

/-- The engine-class markers among those overlapping the window: the part of
`findMarks(from, to)` the sweep callback acts on. -/
def taggedMarks (cfg : Config E α) (st : EditorState α) (f t : Pos) :
    List (TextMarker α) :=
  (findMarks st f t).filter (fun m => m.className == cfg.MARKER_CLASS_NAME)

theorem sweepStep_untagged (cfg : Config E α) (f t : Pos)
    (acc : EditorState α × Option (TextMarker α) × Option (LineWidget α))
    (m : TextMarker α) (h : (m.className == cfg.MARKER_CLASS_NAME) = false) :
    sweepStep cfg f t acc m = acc := by
  simp [sweepStep, h]

theorem foldl_sweepStep_filter (cfg : Config E α) (f t : Pos) :
    ∀ (l : List (TextMarker α))
      (acc : EditorState α × Option (TextMarker α) × Option (LineWidget α)),
      l.foldl (sweepStep cfg f t) acc =
        (l.filter (fun m => m.className == cfg.MARKER_CLASS_NAME)).foldl
          (sweepStep cfg f t) acc
  | [], _ => rfl
  | m :: l, acc => by
      cases h : (m.className == cfg.MARKER_CLASS_NAME)
      · simp only [List.foldl_cons, sweepStep_untagged cfg f t acc m h,
          List.filter_cons, h, Bool.false_eq_true, if_false]
        exact foldl_sweepStep_filter cfg f t l acc
      · simp only [List.foldl_cons, List.filter_cons, h, if_true]
        exact foldl_sweepStep_filter cfg f t l _

theorem sweep_eq_tagged (cfg : Config E α) (st : EditorState α) (f t : Pos) :
    sweep cfg st f t =
      (taggedMarks cfg st f t).foldl (sweepStep cfg f t) (st, none, none) :=
  foldl_sweepStep_filter cfg f t _ _

theorem sweep_no_tagged (cfg : Config E α) (st : EditorState α) (f t : Pos)
    (h : taggedMarks cfg st f t = []) : sweep cfg st f t = (st, none, none) := by
  rw [sweep_eq_tagged, h]
  rfl

theorem sweep_single_tagged (cfg : Config E α) (st : EditorState α)
    (f t : Pos) (m : TextMarker α) (h : taggedMarks cfg st f t = [m]) :
    sweep cfg st f t = sweepStep cfg f t (st, none, none) m := by
  rw [sweep_eq_tagged, h]
  rfl

theorem mem_markers_of_mem_taggedMarks {cfg : Config E α}
    {st : EditorState α} {f t : Pos} {m : TextMarker α}
    (h : m ∈ taggedMarks cfg st f t) : m ∈ st.markers :=
  List.mem_of_mem_filter (List.mem_of_mem_filter h)

theorem tagged_of_mem_taggedMarks {cfg : Config E α} {st : EditorState α}
    {f t : Pos} {m : TextMarker α} (h : m ∈ taggedMarks cfg st f t) :
    (m.className == cfg.MARKER_CLASS_NAME) = true :=
  (List.mem_filter.mp h).2

theorem clearMarkerById_of_mem {st : EditorState α} {m : TextMarker α}
    (h : m ∈ st.markers) :
    clearMarkerById st m.id =
      { st with markers := st.markers.filter (fun x => x.id != m.id),
                muts := st.muts + 1 } := by
  unfold clearMarkerById
  rw [if_pos (List.any_eq_true.mpr ⟨m, h, by simp⟩)]

theorem clearWidgetById_of_mem {st : EditorState α} {w : LineWidget α}
    (h : w ∈ st.lineWidgets) :
    clearWidgetById st w.id =
      { st with lineWidgets := st.lineWidgets.filter (fun x => x.id != w.id),
                muts := st.muts + 1 } := by
  unfold clearWidgetById
  rw [if_pos (List.any_eq_true.mpr ⟨w, h, by simp⟩)]

theorem clearWidgetById_markers (st : EditorState α) (i : Nat) :
    (clearWidgetById st i).markers = st.markers ∧
    (clearWidgetById st i).nextId = st.nextId := by
  unfold clearWidgetById
  split <;> exact ⟨rfl, rfl⟩

theorem clearMarkerById_widgets (st : EditorState α) (i : Nat) :
    (clearMarkerById st i).lineWidgets = st.lineWidgets ∧
    (clearMarkerById st i).nextId = st.nextId := by
  unfold clearMarkerById
  split <;> exact ⟨rfl, rfl⟩

theorem clearWidgetById_subset (st : EditorState α) (i : Nat) :
    ∀ w ∈ (clearWidgetById st i).lineWidgets, w ∈ st.lineWidgets := by
  unfold clearWidgetById
  split
  · intro w hw
    simp only [] at hw
    exact List.mem_of_mem_filter hw
  · exact fun w hw => hw

theorem mem_widgets_of_findLineWidgetAtLine {st : EditorState α} {l : Int}
    {cls : String} {w : LineWidget α}
    (h : findLineWidgetAtLine st l cls = some w) : w ∈ st.lineWidgets :=
  List.mem_of_find?_eq_some h

theorem findLineWidgetAtLine_none_mono {st st' : EditorState α}
    (hsub : ∀ w ∈ st'.lineWidgets, w ∈ st.lineWidgets) (l : Int)
    (cls : String) (h : findLineWidgetAtLine st l cls = none) :
    findLineWidgetAtLine st' l cls = none := by
  unfold findLineWidgetAtLine at h ⊢
  rw [List.find?_eq_none] at h ⊢
  exact fun w hw => h w (hsub w hw)

/-- The decidable statement that no engine-class widget sits on any line of
`[fl, fl + n)`. -/
def midsClean (cfg : Config E α) (st : EditorState α) (fl : Int) (n : Nat) :
    Bool :=
  (List.range n).all
    (fun k => (findLineWidgetAtLine st (fl + (k : Int))
      cfg.lineWidgetClassName).isNone)

theorem strayClearGo_none (cfg : Config E α) :
    ∀ (n : Nat) (st : EditorState α) (l : Int),
      (∀ k : Nat, k < n →
        findLineWidgetAtLine st (l + (k : Int)) cfg.lineWidgetClassName
          = none) →
      strayClearGo cfg st l n = st
  | 0, _, _, _ => rfl
  | n + 1, st, l, h => by
      have h0 := h 0 (Nat.succ_pos n)
      simp only [Nat.cast_zero, add_zero] at h0
      unfold strayClearGo
      rw [h0]
      exact strayClearGo_none cfg n st (l + 1) (fun k hk => by
        have hx := h (k + 1) (Nat.succ_lt_succ hk)
        have harr : l + ((k + 1 : Nat) : Int) = l + 1 + (k : Int) := by
          push_cast
          ring
        rw [harr] at hx
        exact hx)

theorem strayClear_of_midsClean (cfg : Config E α) (st : EditorState α)
    (fl tl : Int) (h : midsClean cfg st fl (tl - fl).toNat = true) :
    strayClear cfg st fl tl = st := by
  unfold strayClear
  apply strayClearGo_none
  intro k hk
  have := List.all_eq_true.mp h k (List.mem_range.mpr hk)
  exact Option.isNone_iff_eq_none.mp this

theorem midsClean_mono {cfg : Config E α} {st st' : EditorState α}
    (hsub : ∀ w ∈ st'.lineWidgets, w ∈ st.lineWidgets) (fl : Int) (n : Nat)
    (h : midsClean cfg st fl n = true) : midsClean cfg st' fl n = true := by
  unfold midsClean at h ⊢
  rw [List.all_eq_true] at h ⊢
  intro k hk
  exact Option.isNone_iff_eq_none.mpr
    (findLineWidgetAtLine_none_mono hsub _ _
      (Option.isNone_iff_eq_none.mp (h k hk)))

theorem taggedMarks_markers_filter (cfg : Config E α) (f t : Pos)
    (p : TextMarker α → Bool) {st st' : EditorState α}
    (h : st'.markers = st.markers.filter p) :
    taggedMarks cfg st' f t = (taggedMarks cfg st f t).filter p := by
  unfold taggedMarks findMarks
  rw [h]
  simp only [List.filter_filter]
  apply List.filter_congr
  intro x _
  cases hx1 : p x <;> cases hx2 : Pos.lt f x.mto <;>
    cases hx3 : Pos.lt x.mfrom t <;>
    cases hx4 : (x.className == cfg.MARKER_CLASS_NAME) <;>
    simp [hx1, hx2, hx3, hx4]

/-! ## C5: renderer exceptions and partial decoration -/

/-- C5 (amended): a renderer exception does propagate uncaught to the caller
of `process` (the reconciliation loop unwinds), but a partial decoration is
committed: in the collapse branch `doc.markText` runs before the block
renderer, so when the block renderer throws, the inline marker from the
failed attempt remains in the store while no widget was added for it. -/
theorem C5_throw_leaves_marker (cfg : Config E α) (st : EditorState α)
    (r : BlockRange) (sp : α) (e : E) (liB liE liB2 liE2 : Nat) (asv : Bool)
    (hcur : isCursorOutRange st.cursor (rFrom r) (rTo st.doc r) = true)
    (hsel : isRangeSelected (rFrom r) (rTo st.doc r) st.selection = false)
    (hnm : taggedMarks cfg st (rFrom r) (rTo st.doc r) = [])
    (hmid : midsClean cfg st r.fromLine (r.toLine - r.fromLine).toNat = true)
    (hsp : cfg.spanRenderer () = Except.ok sp)
    (hrend : cfg.renderer r.beginMatch r.endMatch (blockContent st.doc r)
      r.fromLine r.toLine = Except.error e)
    (hscan : scan st.doc cfg.blockStartTokenRegexp cfg.blockEndTokenRegex
      st.viewport asv liB liE = ([r], liB2, liE2)) :
    (markRange cfg st r).2 = some e ∧
    (markRange cfg st r).1.markers =
      st.markers ++ [⟨st.nextId, rFrom r, rTo st.doc r, cfg.MARKER_CLASS_NAME,
        DomNode.rendered sp⟩] ∧
    (∀ w ∈ (markRange cfg st r).1.lineWidgets, w ∈ st.lineWidgets) ∧
    process cfg st liB liE asv = ((markRange cfg st r).1, liB2, liE2, some e)
    := by
  have hsweep := sweep_no_tagged cfg st (rFrom r) (rTo st.doc r) hnm
  have hstray : strayClear cfg st (rFrom r).line (rTo st.doc r).line = st :=
    strayClear_of_midsClean cfg st _ _ hmid
  have hmain : ∀ P : EditorState α × Option E → Prop,
      (∀ st3 : EditorState α, st3.markers = st.markers →
        st3.nextId = st.nextId →
        (∀ w ∈ st3.lineWidgets, w ∈ st.lineWidgets) →
        P (markText st3 (rFrom r) (rTo st.doc r) cfg.MARKER_CLASS_NAME
            (DomNode.rendered sp), some e)) →
      P (markRange cfg st r) := by
    intro P hP
    have hrend2 : cfg.renderer r.beginMatch r.endMatch (blockContent st.doc r)
        (rFrom r).line (rTo st.doc r).line = Except.error e := hrend
    simp only [markRange, collapseBranch, hsweep, hstray, hsel, hcur,
      Bool.false_and, Bool.false_eq_true, if_false, if_true, hsp, hrend2]
    rcases hfw : findLineWidgetAtLine st (rTo st.doc r).line
        cfg.lineWidgetClassName with _ | w
    · exact hP st rfl rfl (fun w hw => hw)
    · exact hP (clearWidgetById st w.id) (clearWidgetById_markers st w.id).1
        (clearWidgetById_markers st w.id).2 (clearWidgetById_subset st w.id)
  have hmr : (markRange cfg st r).2 = some e ∧
      (markRange cfg st r).1.markers =
        st.markers ++ [⟨st.nextId, rFrom r, rTo st.doc r,
          cfg.MARKER_CLASS_NAME, DomNode.rendered sp⟩] ∧
      (∀ w ∈ (markRange cfg st r).1.lineWidgets, w ∈ st.lineWidgets) := by
    refine hmain (fun res => res.2 = some e ∧
      res.1.markers = st.markers ++ [⟨st.nextId, rFrom r, rTo st.doc r,
        cfg.MARKER_CLASS_NAME, DomNode.rendered sp⟩] ∧
      (∀ w ∈ res.1.lineWidgets, w ∈ st.lineWidgets)) ?_
    intro st3 hm hn hsub
    refine ⟨rfl, ?_, ?_⟩
    · simp [markText, hm, hn]
    · intro w hw
      simp only [markText] at hw
      exact hsub w hw
  refine ⟨hmr.1, hmr.2.1, hmr.2.2, ?_⟩
  have h2 := hmr.1
  rcases hmrr : markRange cfg st r with ⟨st1, err⟩
  rw [hmrr] at h2
  simp only [] at h2
  subst h2
  simp only [process, hscan, List.isEmpty_cons, Bool.false_eq_true, if_false,
    markRanges, hmrr]

/-- The throwing-renderer configuration used by the C5 counterexample. -/
def throwCfg : Config String String :=
  { captureCfg true with renderer := fun _ _ _ _ _ => Except.error "boom" }

/-- C5 (counterexample): with a block renderer that always throws, a
full-document pass over the sample (cursor outside the block) propagates the
exception, but the decoration store is left with the inline marker committed
by the failed attempt and no widget — refuting the claim that no partial or
inconsistent decoration is committed for that block. -/
theorem C5_counterexample_partial_commit :
    (process throwCfg (cleanSampleState ⟨5, 0⟩) 0 0 true).2.2.2 =
      some "boom" ∧
    (process throwCfg (cleanSampleState ⟨5, 0⟩) 0 0 true).1.markers =
      [⟨0, ⟨1, 0⟩, ⟨4, 6⟩, "blk", DomNode.rendered "span"⟩] ∧
    (process throwCfg (cleanSampleState ⟨5, 0⟩) 0 0 true).1.lineWidgets
      = [] := by
  decide

/-- C5 (witness): the amended theorem instantiated on the sample document
with the throwing renderer. -/
theorem C5_throw_leaves_marker_witness :
    (markRange throwCfg (cleanSampleState ⟨5, 0⟩)
        ⟨1, 4, some (0, 8), some (0, 6)⟩).2 = some "boom" ∧
    (markRange throwCfg (cleanSampleState ⟨5, 0⟩)
        ⟨1, 4, some (0, 8), some (0, 6)⟩).1.markers =
      (cleanSampleState ⟨5, 0⟩).markers ++
        [⟨(cleanSampleState ⟨5, 0⟩).nextId,
          rFrom ⟨1, 4, some (0, 8), some (0, 6)⟩,
          rTo (cleanSampleState ⟨5, 0⟩).doc ⟨1, 4, some (0, 8), some (0, 6)⟩,
          throwCfg.MARKER_CLASS_NAME, DomNode.rendered "span"⟩] ∧
    (∀ w ∈ (markRange throwCfg (cleanSampleState ⟨5, 0⟩)
        ⟨1, 4, some (0, 8), some (0, 6)⟩).1.lineWidgets,
      w ∈ (cleanSampleState ⟨5, 0⟩).lineWidgets) ∧
    process throwCfg (cleanSampleState ⟨5, 0⟩) 0 0 true =
      ((markRange throwCfg (cleanSampleState ⟨5, 0⟩)
        ⟨1, 4, some (0, 8), some (0, 6)⟩).1, 0, 0, some "boom") :=
  C5_throw_leaves_marker throwCfg (cleanSampleState ⟨5, 0⟩)
    ⟨1, 4, some (0, 8), some (0, 6)⟩ "span" "boom" 0 0 0 0 true
    (by decide) (by decide) (by decide) (by decide) rfl rfl (by decide)

/-! ## C4: stale decorations for a moved range -/

/-- C4 (amended): during the existing-decoration check, for the single
marker carrying the block's class tag on the window (the spec's store
invariant): lacking a paired widget at the range's end line it is cleared
immediately by the sweep — span match or not — and no existing decoration
is recorded; and when its resolved span does not match `[from, to]` exactly
it is cleared together with its paired widget — but when that paired widget
existed, the cleared marker was already recorded as the pass's
`existingMarker`, so it *is* treated as an existing decoration for the
remainder of the pass and no new decoration pair is created for the moved
range during this pass (one appears only on the next pass). -/
theorem C4_moved_pair_cleared_not_recreated (cfg : Config E α)
    (st : EditorState α) (r : BlockRange) (m : TextMarker α)
    (hcur : isCursorOutRange st.cursor (rFrom r) (rTo st.doc r) = true)
    (hsel : isRangeSelected (rFrom r) (rTo st.doc r) st.selection = false)
    (htag : taggedMarks cfg st (rFrom r) (rTo st.doc r) = [m])
    (hmid : midsClean cfg st r.fromLine (r.toLine - r.fromLine).toNat
      = true) :
    (findLineWidgetAtLine st (rTo st.doc r).line cfg.lineWidgetClassName
        = none →
      sweep cfg st (rFrom r) (rTo st.doc r) =
        (clearMarkerById st m.id, none, none) ∧
      (clearMarkerById st m.id).markers =
        st.markers.filter (fun x => x.id != m.id)) ∧
    ∀ w : LineWidget α,
      (m.mfrom.line != (rFrom r).line ||
        m.mto.line != (rTo st.doc r).line) = true →
      findLineWidgetAtLine st (rTo st.doc r).line cfg.lineWidgetClassName
        = some w →
      (markRange cfg st r).2 = none ∧
      (markRange cfg st r).1.markers =
        st.markers.filter (fun x => x.id != m.id) ∧
      (markRange cfg st r).1.lineWidgets =
        st.lineWidgets.filter (fun x => x.id != w.id) ∧
      taggedMarks cfg (markRange cfg st r).1 (rFrom r) (rTo st.doc r) = []
    := by
  have hmem : m ∈ st.markers :=
    mem_markers_of_mem_taggedMarks (htag ▸ List.mem_singleton_self m)
  have htagged : (m.className == cfg.MARKER_CLASS_NAME) = true :=
    tagged_of_mem_taggedMarks (htag ▸ List.mem_singleton_self m)
  constructor
  · intro hwid0
    have hstep0 : sweepStep cfg (rFrom r) (rTo st.doc r) (st, none, none) m
        = (clearMarkerById st m.id, none, none) := by
      by_cases hmis : (m.mfrom.line != (rFrom r).line ||
          m.mto.line != (rTo st.doc r).line) = true
      · simp [sweepStep, htagged, hwid0, hmis]
      · simp [sweepStep, htagged, hwid0, hmis]
    refine ⟨(sweep_single_tagged cfg st (rFrom r) (rTo st.doc r) m
      htag).trans hstep0, ?_⟩
    rw [clearMarkerById_of_mem hmem]
  intro w hmis hwid
  have hwmem : w ∈ st.lineWidgets := mem_widgets_of_findLineWidgetAtLine hwid
  have hstep : sweepStep cfg (rFrom r) (rTo st.doc r) (st, none, none) m =
      (clearWidgetById (clearMarkerById st m.id) w.id, some m, some w) := by
    simp only [sweepStep, htagged, if_true, hwid, Option.isSome_some, hmis]
  have hsweep := sweep_single_tagged cfg st (rFrom r) (rTo st.doc r) m htag
  rw [hstep] at hsweep
  have hclm := clearMarkerById_of_mem hmem
  have hst1m : (clearWidgetById (clearMarkerById st m.id) w.id).markers =
      st.markers.filter (fun x => x.id != m.id) := by
    rw [(clearWidgetById_markers _ _).1, hclm]
  have hst1w : (clearWidgetById (clearMarkerById st m.id) w.id).lineWidgets =
      st.lineWidgets.filter (fun x => x.id != w.id) := by
    have : w ∈ (clearMarkerById st m.id).lineWidgets := by
      rw [(clearMarkerById_widgets st m.id).1]
      exact hwmem
    rw [clearWidgetById_of_mem this, (clearMarkerById_widgets st m.id).1]
  have hsub : ∀ x ∈ (clearWidgetById (clearMarkerById st m.id)
      w.id).lineWidgets, x ∈ st.lineWidgets := by
    intro x hx
    have := clearWidgetById_subset (clearMarkerById st m.id) w.id x hx
    rw [(clearMarkerById_widgets st m.id).1] at this
    exact this
  have hstray : strayClear cfg (clearWidgetById (clearMarkerById st m.id)
      w.id) (rFrom r).line (rTo st.doc r).line =
      clearWidgetById (clearMarkerById st m.id) w.id :=
    strayClear_of_midsClean cfg _ _ _ (midsClean_mono hsub _ _ hmid)
  have hres : markRange cfg st r =
      (clearWidgetById (clearMarkerById st m.id) w.id, none) := by
    simp only [markRange, hsweep, hstray, hsel, hcur, Bool.false_and,
      Bool.false_eq_true, if_false, if_true]
  refine ⟨by rw [hres], by rw [hres]; exact hst1m, by rw [hres]; exact hst1w,
    ?_⟩
  rw [hres]
  have := taggedMarks_markers_filter cfg (rFrom r) (rTo st.doc r)
    (fun x => x.id != m.id) hst1m
  rw [this, htag]
  simp

/-- The decoration store of the C4 counterexample: a stale tagged marker
whose span (lines 0-3) no longer matches the discovered block `{1, 4}`, with
its paired widget at line 4; cursor outside the block. -/
def movedState : EditorState String :=
  { cleanSampleState ⟨5, 0⟩ with
    markers := [⟨0, ⟨0, 0⟩, ⟨3, 1⟩, "blk", DomNode.rendered "old"⟩],
    lineWidgets := [⟨1, 4, "blk-line-widget", [DomNode.rendered "oldw"]⟩],
    nextId := 2 }

/-- C4 (counterexample): on `movedState` the pass clears the stale
marker/widget pair, but — the cursor being outside the moved range — creates
*nothing*: the final store is empty, refuting the claim that a new
decoration pair is created for the moved range during that pass. -/
theorem C4_counterexample_no_new_pair :
    (process (captureCfg true) movedState 0 0 true).1.markers = [] ∧
    (process (captureCfg true) movedState 0 0 true).1.lineWidgets = [] ∧
    (process (captureCfg true) movedState 0 0 true).2.2.2 = none := by
  decide

/-- The decoration store of the C4 orphan case: a tagged marker whose span
even matches the discovered block `{1, 4}` exactly, but with no paired
widget anywhere; cursor outside the block. -/
def orphanState : EditorState String :=
  { cleanSampleState ⟨5, 0⟩ with
    markers := [⟨0, ⟨1, 0⟩, ⟨4, 6⟩, "blk", DomNode.rendered "old"⟩],
    nextId := 1 }

/-- C4 (witness): the amended theorem instantiated on `movedState`
(span-mismatched marker with its paired widget: both cleared, nothing
recreated) and on `orphanState` (widget-lacking marker, span matching:
cleared immediately by the sweep, no existing decoration recorded). -/
theorem C4_moved_pair_witness :
    ((markRange (captureCfg true) movedState
        ⟨1, 4, some (0, 8), some (0, 6)⟩).2 = none ∧
     (markRange (captureCfg true) movedState
        ⟨1, 4, some (0, 8), some (0, 6)⟩).1.markers =
      movedState.markers.filter (fun x => x.id != 0) ∧
     (markRange (captureCfg true) movedState
        ⟨1, 4, some (0, 8), some (0, 6)⟩).1.lineWidgets =
      movedState.lineWidgets.filter (fun x => x.id != 1) ∧
     taggedMarks (captureCfg true)
      (markRange (captureCfg true) movedState
        ⟨1, 4, some (0, 8), some (0, 6)⟩).1
      (rFrom ⟨1, 4, some (0, 8), some (0, 6)⟩)
      (rTo movedState.doc ⟨1, 4, some (0, 8), some (0, 6)⟩) = []) ∧
    (sweep (captureCfg true) orphanState
        (rFrom ⟨1, 4, some (0, 8), some (0, 6)⟩)
        (rTo orphanState.doc ⟨1, 4, some (0, 8), some (0, 6)⟩) =
      (clearMarkerById orphanState 0, none, none) ∧
     (clearMarkerById orphanState 0).markers =
      orphanState.markers.filter (fun x => x.id != 0)) :=
  ⟨(C4_moved_pair_cleared_not_recreated (captureCfg true) movedState
      ⟨1, 4, some (0, 8), some (0, 6)⟩
      ⟨0, ⟨0, 0⟩, ⟨3, 1⟩, "blk", DomNode.rendered "old"⟩
      (by decide) (by decide) (by decide) (by decide)).2
    ⟨1, 4, "blk-line-widget", [DomNode.rendered "oldw"]⟩
    (by decide) (by decide),
   (C4_moved_pair_cleared_not_recreated (captureCfg true) orphanState
      ⟨1, 4, some (0, 8), some (0, 6)⟩
      ⟨0, ⟨1, 0⟩, ⟨4, 6⟩, "blk", DomNode.rendered "old"⟩
      (by decide) (by decide) (by decide) (by decide)).1 (by decide)⟩

/-! ## Widget-query lemmas -/

theorem eq_of_mem_of_length_le_one {β : Type _} {l : List β} {x y : β}
    (h : l.length ≤ 1) (hx : x ∈ l) (hy : y ∈ l) : x = y := by
  cases l with
  | nil => cases hx
  | cons a t =>
      cases t with
      | nil =>
          rw [List.mem_singleton] at hx hy
          rw [hx, hy]
      | cons b t2 => simp [List.length_cons] at h

theorem list_len_le_one_cases {β : Type _} {l : List β} (h : l.length ≤ 1) :
    l = [] ∨ ∃ a, l = [a] := by
  cases l with
  | nil => exact Or.inl rfl
  | cons a t =>
      cases t with
      | nil => exact Or.inr ⟨a, rfl⟩
      | cons b t2 => simp [List.length_cons] at h

theorem taggedMarks_congr (cfg : Config E α) {st st' : EditorState α}
    (h : st'.markers = st.markers) (f t : Pos) :
    taggedMarks cfg st' f t = taggedMarks cfg st f t := by
  unfold taggedMarks findMarks
  rw [h]

theorem findLineWidgetAtLine_congr {st st' : EditorState α}
    (h : st'.lineWidgets = st.lineWidgets) (l : Int) (cls : String) :
    findLineWidgetAtLine st' l cls = findLineWidgetAtLine st l cls := by
  unfold findLineWidgetAtLine
  rw [h]

theorem updateWidgetNode_markers (st : EditorState α) (i : Nat)
    (nd : List (DomNode α)) : (updateWidgetNode st i nd).markers = st.markers
    := rfl

theorem addLineWidget_markers (st : EditorState α) (l : Int)
    (nd : List (DomNode α)) (cls : String) :
    (addLineWidget st l nd cls).markers = st.markers := rfl

theorem find?_congr_fun {β : Type _} (p q : β → Bool) (h : ∀ a, p a = q a) :
    ∀ l : List β, l.find? p = l.find? q
  | [] => rfl
  | a :: t => by
      rw [List.find?_cons, List.find?_cons, h a, find?_congr_fun p q h t]

theorem find?_mem_and_pred {β : Type _} {p : β → Bool} :
    ∀ {l : List β} {a : β}, l.find? p = some a → a ∈ l ∧ p a = true
  | [], _, h => by cases h
  | b :: t, a, h => by
      rw [List.find?_cons] at h
      cases hpb : p b
      · rw [hpb] at h
        have hrec := find?_mem_and_pred h
        exact ⟨List.mem_cons_of_mem b hrec.1, hrec.2⟩
      · rw [hpb] at h
        simp only [] at h
        injection h with h2
        rw [← h2]
        exact ⟨List.mem_cons_self b t, hpb⟩

theorem findLineWidgetAtLine_update (st : EditorState α) (i : Nat)
    (nd : List (DomNode α)) (l : Int) (cls : String) :
    findLineWidgetAtLine (updateWidgetNode st i nd) l cls =
      (findLineWidgetAtLine st l cls).map
        (fun w => if w.id == i then { w with node := nd } else w) := by
  unfold findLineWidgetAtLine updateWidgetNode
  simp only [List.find?_map]
  apply congrArg
  apply find?_congr_fun
  intro a
  by_cases hw : (a.id == i) = true <;> simp [Function.comp, hw]

theorem findLineWidgetAtLine_add_self (st : EditorState α) (l : Int)
    (nd : List (DomNode α)) (cls : String)
    (h : findLineWidgetAtLine st l cls = none) :
    findLineWidgetAtLine (addLineWidget st l nd cls) l cls =
      some ⟨st.nextId, l, cls, nd⟩ := by
  unfold findLineWidgetAtLine addLineWidget at *
  simp only [List.find?_append, h, Option.none_orElse]
  simp [List.find?_cons]

theorem findLineWidgetAtLine_clear_found {st : EditorState α} {l : Int}
    {cls : String} {w : LineWidget α}
    (h1 : (st.lineWidgets.filter
      (fun x => x.line == l && x.className == cls)).length ≤ 1)
    (hfw : findLineWidgetAtLine st l cls = some w) :
    findLineWidgetAtLine (clearWidgetById st w.id) l cls = none := by
  have hwmem := mem_widgets_of_findLineWidgetAtLine hfw
  rw [clearWidgetById_of_mem hwmem]
  unfold findLineWidgetAtLine at *
  simp only []
  rw [List.find?_eq_none]
  intro x hx hpx
  have hx1 : x ∈ st.lineWidgets := List.mem_of_mem_filter hx
  have hxid : (x.id != w.id) = true := (List.mem_filter.mp hx).2
  have hw_in : w ∈ st.lineWidgets.filter
      (fun x => x.line == l && x.className == cls) :=
    List.mem_filter.mpr ⟨(find?_mem_and_pred hfw).1, (find?_mem_and_pred hfw).2⟩
  have hx_in : x ∈ st.lineWidgets.filter
      (fun x => x.line == l && x.className == cls) :=
    List.mem_filter.mpr ⟨hx1, hpx⟩
  have hxw := eq_of_mem_of_length_le_one h1 hx_in hw_in
  rw [hxw] at hxid
  simp at hxid

theorem clearMarkerById_no_match {st : EditorState α} {i : Nat}
    (h : ∀ x ∈ st.markers, (x.id == i) = false) :
    clearMarkerById st i = st := by
  unfold clearMarkerById
  rw [if_neg]
  intro hc
  obtain ⟨x, hx, hpx⟩ := List.any_eq_true.mp hc
  rw [h x hx] at hpx
  cases hpx

theorem widgetFilter_length_le {st st' : EditorState α}
    {q : LineWidget α → Bool}
    (h : st'.lineWidgets = st.lineWidgets.filter q) (p : LineWidget α → Bool) :
    (st'.lineWidgets.filter p).length ≤ (st.lineWidgets.filter p).length := by
  rw [h]
  exact ((List.filter_sublist st.lineWidgets).filter p).length_le

/-! ## C6: the cursor-inside reconciliation states -/

/-- Characterization of the cursor-inside widget handling, given a state in
which any existing marker has already been cleared: the pass succeeds,
markers are untouched, and an engine-class widget sits at the end line
exactly when `renderWhenEditing` — freshly rendered from the block's current
content (rebuilt in place when a widget existed, created when absent). -/
theorem editingTail_characterization (cfg : Config E α)
    (st3 : EditorState α) (r : BlockRange) (f t : Pos) (content : String)
    (el : α)
    (hrend : cfg.renderer r.beginMatch r.endMatch content f.line t.line =
      Except.ok el)
    (hw1 : (st3.lineWidgets.filter (fun x =>
      x.line == t.line && x.className == cfg.lineWidgetClassName)).length
      ≤ 1) :
    (editingTail cfg st3 r f t content).2 = none ∧
    (editingTail cfg st3 r f t content).1.markers = st3.markers ∧
    ((findLineWidgetAtLine (editingTail cfg st3 r f t content).1 t.line
      cfg.lineWidgetClassName).isSome = cfg.renderWhenEditing) ∧
    (cfg.renderWhenEditing = true →
      ∃ wid, findLineWidgetAtLine (editingTail cfg st3 r f t content).1
          t.line cfg.lineWidgetClassName = some wid ∧
        wid.node = [DomNode.rendered el]) := by
  cases hrwe : cfg.renderWhenEditing
  · rcases hfw : findLineWidgetAtLine st3 t.line cfg.lineWidgetClassName
        with _ | w
    · have hres : editingTail cfg st3 r f t content = (st3, none) := by
        simp [editingTail, hrwe, hfw]
      rw [hres]
      refine ⟨rfl, rfl, by simp [hfw, hrwe], ?_⟩
      intro hc
      cases hc
    · have hres : editingTail cfg st3 r f t content =
          (clearWidgetById st3 w.id, none) := by
        simp [editingTail, hrwe, hfw]
      rw [hres]
      refine ⟨rfl, (clearWidgetById_markers st3 w.id).1,
        by simp [findLineWidgetAtLine_clear_found hw1 hfw, hrwe], ?_⟩
      intro hc
      cases hc
  · rcases hfw : findLineWidgetAtLine st3 t.line cfg.lineWidgetClassName
        with _ | w
    · have hres : editingTail cfg st3 r f t content =
          (addLineWidget st3 t.line [DomNode.rendered el]
            cfg.lineWidgetClassName, none) := by
        simp [editingTail, hrwe, hfw, hrend]
      rw [hres]
      refine ⟨rfl, rfl,
        by simp [findLineWidgetAtLine_add_self st3 t.line _ _ hfw, hrwe],
        fun _ => ⟨_, findLineWidgetAtLine_add_self st3 t.line _ _ hfw, rfl⟩⟩
    · have hres : editingTail cfg st3 r f t content =
          (updateWidgetNode (updateWidgetNode st3 w.id []) w.id
            [DomNode.rendered el], none) := by
        simp [editingTail, hrwe, hfw, hrend]
      have hfind : findLineWidgetAtLine
          (updateWidgetNode (updateWidgetNode st3 w.id []) w.id
            [DomNode.rendered el]) t.line cfg.lineWidgetClassName =
          some { w with node := [DomNode.rendered el] } := by
        rw [findLineWidgetAtLine_update, findLineWidgetAtLine_update, hfw]
        simp
      rw [hres]
      exact ⟨rfl, rfl, by simp [hfind, hrwe], fun _ => ⟨_, hfind, rfl⟩⟩

/-- C6: for a discovered range with the cursor inside `[fromLine, toLine]`
(so the selected-and-cursor-outside case cannot apply), assuming the store
invariant of at most one engine decoration per place: the pass succeeds, any
existing engine marker overlapping the block is cleared and none is created,
and afterwards an engine widget exists at `toLine` exactly when
`renderWhenEditing` is set — rebuilt in place when already present, created
when absent, holding the freshly rendered content — while any existing
widget is cleared when `renderWhenEditing` is unset. -/
theorem C6_cursor_inside_reconciliation (cfg : Config E α)
    (st : EditorState α) (r : BlockRange) (el : α)
    (hcur : isCursorOutRange st.cursor (rFrom r) (rTo st.doc r) = false)
    (htag1 : (taggedMarks cfg st (rFrom r) (rTo st.doc r)).length ≤ 1)
    (hwid1 : (st.lineWidgets.filter (fun x =>
      x.line == (rTo st.doc r).line &&
        x.className == cfg.lineWidgetClassName)).length ≤ 1)
    (hmid : midsClean cfg st r.fromLine (r.toLine - r.fromLine).toNat = true)
    (hrend : cfg.renderer r.beginMatch r.endMatch (blockContent st.doc r)
      r.fromLine r.toLine = Except.ok el) :
    (markRange cfg st r).2 = none ∧
    (∀ x ∈ (markRange cfg st r).1.markers, x ∈ st.markers) ∧
    taggedMarks cfg (markRange cfg st r).1 (rFrom r) (rTo st.doc r) = [] ∧
    ((findLineWidgetAtLine (markRange cfg st r).1 (rTo st.doc r).line
      cfg.lineWidgetClassName).isSome = cfg.renderWhenEditing) ∧
    (cfg.renderWhenEditing = true →
      ∃ wid, findLineWidgetAtLine (markRange cfg st r).1
          (rTo st.doc r).line cfg.lineWidgetClassName = some wid ∧
        wid.node = [DomNode.rendered el]) := by
  have hrend2 : cfg.renderer r.beginMatch r.endMatch (blockContent st.doc r)
      (rFrom r).line (rTo st.doc r).line = Except.ok el := hrend
  -- reduce `markRange` to `editingTail cfg st3 r f t content` for an
  -- explicit `st3`, collecting the facts the tail characterization needs
  have main : ∀ P : EditorState α × Option E → Prop,
      (∀ st3 : EditorState α,
        (∀ x ∈ st3.markers, x ∈ st.markers) →
        taggedMarks cfg st3 (rFrom r) (rTo st.doc r) = [] →
        (st3.lineWidgets.filter (fun x =>
          x.line == (rTo st.doc r).line &&
            x.className == cfg.lineWidgetClassName)).length ≤ 1 →
        P (editingTail cfg st3 r (rFrom r) (rTo st.doc r)
            (blockContent st.doc r))) →
      P (markRange cfg st r) := by
    intro P hP
    rcases list_len_le_one_cases htag1 with htag | ⟨m, htag⟩
    · -- no tagged marker overlapping the window
      have hsweep := sweep_no_tagged cfg st (rFrom r) (rTo st.doc r) htag
      have hstray : strayClear cfg st (rFrom r).line (rTo st.doc r).line
          = st := strayClear_of_midsClean cfg st _ _ hmid
      simp only [markRange, hsweep, hstray, hcur, Bool.and_false,
        Bool.false_eq_true, if_false]
      exact hP st (fun x hx => hx) htag hwid1
    · -- exactly one tagged marker m
      have hsweepEq := sweep_single_tagged cfg st (rFrom r) (rTo st.doc r)
        m htag
      have htagged : (m.className == cfg.MARKER_CLASS_NAME) = true :=
        tagged_of_mem_taggedMarks (htag ▸ List.mem_singleton_self m)
      have hmem : m ∈ st.markers :=
        mem_markers_of_mem_taggedMarks (htag ▸ List.mem_singleton_self m)
      have hclm := clearMarkerById_of_mem hmem
      have htagClr : taggedMarks cfg (clearMarkerById st m.id) (rFrom r)
          (rTo st.doc r) = [] := by
        rw [taggedMarks_markers_filter cfg (rFrom r) (rTo st.doc r)
          (fun x => x.id != m.id) (by rw [hclm]), htag]
        simp
      have hsubClr : ∀ x ∈ (clearMarkerById st m.id).markers,
          x ∈ st.markers := by
        rw [hclm]
        exact fun x hx => List.mem_of_mem_filter hx
      rcases hfw0 : findLineWidgetAtLine st (rTo st.doc r).line
          cfg.lineWidgetClassName with _ | w0
      · -- no widget at the end line: the sweep clears the marker itself
        have hstep : sweepStep cfg (rFrom r) (rTo st.doc r)
            (st, none, none) m = (clearMarkerById st m.id, none, none) := by
          simp only [sweepStep, htagged, if_true, hfw0, Option.isSome_none,
            Bool.false_eq_true, if_false, Option.isNone_none]
          split
          · rfl
          · rfl
        rw [hstep] at hsweepEq
        have hwidsEq : (clearMarkerById st m.id).lineWidgets
            = st.lineWidgets := (clearMarkerById_widgets st m.id).1
        have hstray : strayClear cfg (clearMarkerById st m.id)
            (rFrom r).line (rTo st.doc r).line = clearMarkerById st m.id :=
          strayClear_of_midsClean cfg _ _ _
            (midsClean_mono (fun w hw => hwidsEq ▸ hw) _ _ hmid)
        simp only [markRange, hsweepEq, hstray, hcur, Bool.and_false,
          Bool.false_eq_true, if_false]
        refine hP (clearMarkerById st m.id) hsubClr htagClr ?_
        rw [hwidsEq]
        exact hwid1
      · -- a widget at the end line: `existingMarker` is recorded
        rcases hspan : (m.mfrom.line != (rFrom r).line ||
            m.mto.line != (rTo st.doc r).line) with _ | _
        · -- span matches: marker kept by the sweep, cleared by the branch
          have hstep : sweepStep cfg (rFrom r) (rTo st.doc r)
              (st, none, none) m = (st, some m, some w0) := by
            simp only [sweepStep, htagged, if_true, hfw0, Option.isSome_some,
              hspan, Bool.false_eq_true, if_false, Option.isNone_some]
          rw [hstep] at hsweepEq
          have hstray : strayClear cfg st (rFrom r).line
              (rTo st.doc r).line = st :=
            strayClear_of_midsClean cfg st _ _ hmid
          simp only [markRange, hsweepEq, hstray, hcur, Bool.and_false,
            Bool.false_eq_true, if_false]
          refine hP (clearMarkerById st m.id) hsubClr htagClr ?_
          rw [(clearMarkerById_widgets st m.id).1]
          exact hwid1
        · -- span mismatch: sweep clears marker and widget; the branch's
          -- `clearMarkerById` then finds nothing to clear
          have hstep : sweepStep cfg (rFrom r) (rTo st.doc r)
              (st, none, none) m =
              (clearWidgetById (clearMarkerById st m.id) w0.id, some m,
                some w0) := by
            simp only [sweepStep, htagged, if_true, hfw0, Option.isSome_some,
              hspan, if_true]
          rw [hstep] at hsweepEq
          have hw0mem : w0 ∈ (clearMarkerById st m.id).lineWidgets := by
            rw [(clearMarkerById_widgets st m.id).1]
            exact mem_widgets_of_findLineWidgetAtLine hfw0
          have hst1w : (clearWidgetById (clearMarkerById st m.id)
              w0.id).lineWidgets =
              st.lineWidgets.filter (fun x => x.id != w0.id) := by
            rw [clearWidgetById_of_mem hw0mem,
              (clearMarkerById_widgets st m.id).1]
          have hst1m : (clearWidgetById (clearMarkerById st m.id)
              w0.id).markers = st.markers.filter (fun x => x.id != m.id) := by
            rw [(clearWidgetById_markers _ _).1, hclm]
          have hsub1 : ∀ w ∈ (clearWidgetById (clearMarkerById st m.id)
              w0.id).lineWidgets, w ∈ st.lineWidgets := by
            rw [hst1w]
            exact fun w hw => List.mem_of_mem_filter hw
          have hstray : strayClear cfg
              (clearWidgetById (clearMarkerById st m.id) w0.id)
              (rFrom r).line (rTo st.doc r).line =
              clearWidgetById (clearMarkerById st m.id) w0.id :=
            strayClear_of_midsClean cfg _ _ _
              (midsClean_mono hsub1 _ _ hmid)
          have hnoclr : clearMarkerById
              (clearWidgetById (clearMarkerById st m.id) w0.id) m.id =
              clearWidgetById (clearMarkerById st m.id) w0.id := by
            apply clearMarkerById_no_match
            intro x hx
            rw [hst1m] at hx
            have := (List.mem_filter.mp hx).2
            simpa using this
          simp only [markRange, hsweepEq, hstray, hcur, Bool.and_false,
            Bool.false_eq_true, if_false, hnoclr]
          refine hP (clearWidgetById (clearMarkerById st m.id) w0.id)
            (fun x hx => ?_) ?_ ?_
          · rw [hst1m] at hx
            exact List.mem_of_mem_filter hx
          · rw [taggedMarks_markers_filter cfg (rFrom r) (rTo st.doc r)
              (fun x => x.id != m.id) hst1m, htag]
            simp
          · exact widgetFilter_length_le hst1w _ |>.trans hwid1
  refine main (fun res => res.2 = none ∧
    (∀ x ∈ res.1.markers, x ∈ st.markers) ∧
    taggedMarks cfg res.1 (rFrom r) (rTo st.doc r) = [] ∧
    ((findLineWidgetAtLine res.1 (rTo st.doc r).line
      cfg.lineWidgetClassName).isSome = cfg.renderWhenEditing) ∧
    (cfg.renderWhenEditing = true →
      ∃ wid, findLineWidgetAtLine res.1 (rTo st.doc r).line
          cfg.lineWidgetClassName = some wid ∧
        wid.node = [DomNode.rendered el])) ?_
  intro st3 hsub htagY hw1Y
  obtain ⟨he1, he2, he3, he4⟩ := editingTail_characterization cfg st3 r
    (rFrom r) (rTo st.doc r) (blockContent st.doc r) el hrend2 hw1Y
  refine ⟨he1, ?_, ?_, he3, he4⟩
  · intro x hx
    rw [he2] at hx
    exact hsub x hx
  · rw [taggedMarks_congr cfg he2, htagY]

/-- C6 (witness): the cursor-inside theorem instantiated on the sample
document (cursor at line 2, inside `[1, 4]`) with `renderWhenEditing` set,
starting from the store produced by a cursor-outside pass (one marker, one
widget). -/
theorem C6_cursor_inside_witness :
    (markRange (captureCfg true)
        { (process (captureCfg true) (cleanSampleState ⟨5, 0⟩) 0 0 true).1
            with cursor := ⟨2, 0⟩ }
        ⟨1, 4, some (0, 8), some (0, 6)⟩).2 = none ∧
    (∀ x ∈ (markRange (captureCfg true)
        { (process (captureCfg true) (cleanSampleState ⟨5, 0⟩) 0 0 true).1
            with cursor := ⟨2, 0⟩ }
        ⟨1, 4, some (0, 8), some (0, 6)⟩).1.markers,
      x ∈ ({ (process (captureCfg true) (cleanSampleState ⟨5, 0⟩) 0 0
          true).1 with cursor := ⟨2, 0⟩ } : EditorState String).markers) ∧
    taggedMarks (captureCfg true)
      (markRange (captureCfg true)
        { (process (captureCfg true) (cleanSampleState ⟨5, 0⟩) 0 0 true).1
            with cursor := ⟨2, 0⟩ }
        ⟨1, 4, some (0, 8), some (0, 6)⟩).1
      (rFrom ⟨1, 4, some (0, 8), some (0, 6)⟩)
      (rTo sampleDoc ⟨1, 4, some (0, 8), some (0, 6)⟩) = [] ∧
    ((findLineWidgetAtLine
      (markRange (captureCfg true)
        { (process (captureCfg true) (cleanSampleState ⟨5, 0⟩) 0 0 true).1
            with cursor := ⟨2, 0⟩ }
        ⟨1, 4, some (0, 8), some (0, 6)⟩).1
      (rTo sampleDoc ⟨1, 4, some (0, 8), some (0, 6)⟩).line
      (captureCfg true).lineWidgetClassName).isSome =
        (captureCfg true).renderWhenEditing) ∧
    ((captureCfg true).renderWhenEditing = true →
      ∃ wid, findLineWidgetAtLine
          (markRange (captureCfg true)
            { (process (captureCfg true) (cleanSampleState ⟨5, 0⟩) 0 0
                true).1 with cursor := ⟨2, 0⟩ }
            ⟨1, 4, some (0, 8), some (0, 6)⟩).1
          (rTo sampleDoc ⟨1, 4, some (0, 8), some (0, 6)⟩).line
          (captureCfg true).lineWidgetClassName = some wid ∧
        wid.node = [DomNode.rendered "a\nb"]) :=
  C6_cursor_inside_reconciliation (captureCfg true)
    { (process (captureCfg true) (cleanSampleState ⟨5, 0⟩) 0 0 true).1
        with cursor := ⟨2, 0⟩ }
    ⟨1, 4, some (0, 8), some (0, 6)⟩ "a\nb"
    (by decide) (by decide) (by decide) (by decide) rfl

/-! ## Identity discipline of the decoration store -/

/-- Well-formed decoration identities: every decoration's identity is below
the allocator's next value, and identities are pairwise distinct. -/
def WFIds (st : EditorState α) : Prop :=
  (∀ m ∈ st.markers, m.id < st.nextId) ∧
  (∀ w ∈ st.lineWidgets, w.id < st.nextId) ∧
  (st.markers.map (fun m => m.id)).Nodup ∧
  (st.lineWidgets.map (fun w => w.id)).Nodup

theorem filter_filter_of_imp {β : Type _} {p q : β → Bool} :
    ∀ {l : List β}, (∀ x ∈ l, p x = true → q x = true) →
      (l.filter q).filter p = l.filter p
  | [], _ => rfl
  | a :: t, h => by
      have ht := fun x hx => h x (List.mem_cons_of_mem a hx)
      cases hq : q a
      · have hpa : p a = false := by
          cases hpa : p a
          · rfl
          · rw [h a (List.mem_cons_self a t) hpa] at hq
            cases hq
        simp [List.filter_cons, hq, hpa, filter_filter_of_imp ht]
      · by_cases hpa : p a = true <;>
          simp [List.filter_cons, hq, hpa, filter_filter_of_imp ht]

theorem filter_map_of_id_on {β : Type _} {f : β → β} {p : β → Bool}
    (hp : ∀ x, p (f x) = p x) :
    ∀ {l : List β}, (∀ x ∈ l, p x = true → f x = x) →
      (l.map f).filter p = l.filter p
  | [], _ => rfl
  | a :: t, h => by
      have ht := fun x hx => h x (List.mem_cons_of_mem a hx)
      by_cases hpa : p a = true <;>
        simp [List.filter_cons, hp a, hpa, h a (List.mem_cons_self a t),
          filter_map_of_id_on hp ht]

/-- The markers that do not carry the engine's marker class tag. -/
def untaggedMarkers (cfg : Config E α) (st : EditorState α) :
    List (TextMarker α) :=
  st.markers.filter (fun m => !(m.className == cfg.MARKER_CLASS_NAME))

/-- The widgets that do not carry the engine's line-widget class name. -/
def untaggedWidgets (cfg : Config E α) (st : EditorState α) :
    List (LineWidget α) :=
  st.lineWidgets.filter (fun w => !(w.className == cfg.lineWidgetClassName))

theorem clearMarkerById_untag (cfg : Config E α) (st : EditorState α)
    (i : Nat)
    (h : ∀ x ∈ st.markers, x.id = i →
      (x.className == cfg.MARKER_CLASS_NAME) = true) :
    untaggedMarkers cfg (clearMarkerById st i) = untaggedMarkers cfg st := by
  unfold untaggedMarkers clearMarkerById
  split
  · simp only []
    apply filter_filter_of_imp
    intro x hx hpx
    by_cases hxi : x.id = i
    · rw [h x hx hxi] at hpx
      cases hpx
    · simp [hxi]
  · rfl

theorem clearWidgetById_untag (cfg : Config E α) (st : EditorState α)
    (i : Nat)
    (h : ∀ x ∈ st.lineWidgets, x.id = i →
      (x.className == cfg.lineWidgetClassName) = true) :
    untaggedWidgets cfg (clearWidgetById st i) = untaggedWidgets cfg st := by
  unfold untaggedWidgets clearWidgetById
  split
  · simp only []
    apply filter_filter_of_imp
    intro x hx hpx
    by_cases hxi : x.id = i
    · rw [h x hx hxi] at hpx
      cases hpx
    · simp [hxi]
  · rfl

theorem markText_untag (cfg : Config E α) (st : EditorState α) (f t : Pos)
    (el : DomNode α) :
    untaggedMarkers cfg (markText st f t cfg.MARKER_CLASS_NAME el) =
      untaggedMarkers cfg st := by
  unfold untaggedMarkers markText
  simp [List.filter_append]

theorem addLineWidget_untag (cfg : Config E α) (st : EditorState α) (l : Int)
    (nd : List (DomNode α)) :
    untaggedWidgets cfg (addLineWidget st l nd cfg.lineWidgetClassName) =
      untaggedWidgets cfg st := by
  unfold untaggedWidgets addLineWidget
  simp [List.filter_append]

theorem updateWidgetNode_untag (cfg : Config E α) (st : EditorState α)
    (i : Nat) (nd : List (DomNode α))
    (h : ∀ x ∈ st.lineWidgets, x.id = i →
      (x.className == cfg.lineWidgetClassName) = true) :
    untaggedWidgets cfg (updateWidgetNode st i nd) =
      untaggedWidgets cfg st := by
  unfold untaggedWidgets updateWidgetNode
  simp only []
  apply filter_map_of_id_on
  · intro x
    by_cases hxi : (x.id == i) = true <;> simp [hxi]
  · intro x hx hpx
    by_cases hxi : x.id = i
    · rw [h x hx hxi] at hpx
      cases hpx
    · simp [hxi]

theorem clearMarkerById_markers_subset (st : EditorState α) (i : Nat) :
    ∀ x ∈ (clearMarkerById st i).markers, x ∈ st.markers := by
  unfold clearMarkerById
  split
  · intro x hx
    simp only [] at hx
    exact List.mem_of_mem_filter hx
  · exact fun x hx => hx

theorem WFIds_clearMarkerById {st : EditorState α} (h : WFIds st) (i : Nat) :
    WFIds (clearMarkerById st i) := by
  obtain ⟨h1, h2, h3, h4⟩ := h
  unfold WFIds clearMarkerById
  split
  · refine ⟨fun m hm => h1 m (List.mem_of_mem_filter hm), h2, ?_, h4⟩
    exact h3.sublist ((List.filter_sublist st.markers).map _)
  · exact ⟨h1, h2, h3, h4⟩

theorem WFIds_clearWidgetById {st : EditorState α} (h : WFIds st) (i : Nat) :
    WFIds (clearWidgetById st i) := by
  obtain ⟨h1, h2, h3, h4⟩ := h
  unfold WFIds clearWidgetById
  split
  · refine ⟨h1, fun w hw => h2 w (List.mem_of_mem_filter hw), h3, ?_⟩
    exact h4.sublist ((List.filter_sublist st.lineWidgets).map _)
  · exact ⟨h1, h2, h3, h4⟩

theorem WFIds_markText {st : EditorState α} (h : WFIds st) (f t : Pos)
    (cls : String) (el : DomNode α) : WFIds (markText st f t cls el) := by
  obtain ⟨h1, h2, h3, h4⟩ := h
  unfold WFIds markText
  refine ⟨?_, fun w hw => Nat.lt_succ_of_lt (h2 w hw), ?_, h4⟩
  · intro m hm
    rcases List.mem_append.mp hm with hm | hm
    · exact Nat.lt_succ_of_lt (h1 m hm)
    · rw [List.mem_singleton] at hm
      rw [hm]
      exact Nat.lt_succ_self _
  · rw [List.map_append]
    rw [List.nodup_append]
    refine ⟨h3, List.nodup_singleton _, ?_⟩
    intro a ha hb
    rw [List.map_singleton, List.mem_singleton] at hb
    obtain ⟨m, hm, hmid⟩ := List.mem_map.mp ha
    rw [hb] at hmid
    exact absurd (hmid ▸ h1 m hm) (lt_irrefl _)

theorem WFIds_addLineWidget {st : EditorState α} (h : WFIds st) (l : Int)
    (nd : List (DomNode α)) (cls : String) :
    WFIds (addLineWidget st l nd cls) := by
  obtain ⟨h1, h2, h3, h4⟩ := h
  unfold WFIds addLineWidget
  refine ⟨fun m hm => Nat.lt_succ_of_lt (h1 m hm), ?_, h3, ?_⟩
  · intro w hw
    rcases List.mem_append.mp hw with hw | hw
    · exact Nat.lt_succ_of_lt (h2 w hw)
    · rw [List.mem_singleton] at hw
      rw [hw]
      exact Nat.lt_succ_self _
  · rw [List.map_append]
    rw [List.nodup_append]
    refine ⟨h4, List.nodup_singleton _, ?_⟩
    intro a ha hb
    rw [List.map_singleton, List.mem_singleton] at hb
    obtain ⟨w, hw, hwid⟩ := List.mem_map.mp ha
    rw [hb] at hwid
    exact absurd (hwid ▸ h2 w hw) (lt_irrefl _)

theorem WFIds_updateWidgetNode {st : EditorState α} (h : WFIds st) (i : Nat)
    (nd : List (DomNode α)) : WFIds (updateWidgetNode st i nd) := by
  obtain ⟨h1, h2, h3, h4⟩ := h
  unfold WFIds updateWidgetNode
  have hids : (st.lineWidgets.map
      (fun w => if w.id == i then { w with node := nd } else w)).map
        (fun w => w.id) = st.lineWidgets.map (fun w => w.id) := by
    rw [List.map_map]
    apply List.map_congr_left
    intro w _
    by_cases hw : w.id = i <;> simp [hw]
  refine ⟨h1, ?_, h3, by rw [hids]; exact h4⟩
  intro w hw
  obtain ⟨y, hy, hyw⟩ := List.mem_map.mp hw
  have : w.id = y.id := by
    rw [← hyw]
    by_cases hid : y.id = i <;> simp [hid]
  rw [this]
  exact h2 y hy

/-- States reachable from `st` through the decoration operations the engine
performs, each clear/update justified as acting only on decorations bearing
the engine's class names, and each creation carrying them. -/
inductive Reach (cfg : Config E α) (st : EditorState α) :
    EditorState α → Prop where
  | refl : Reach cfg st st
  | clearM (s : EditorState α) (i : Nat) (hr : Reach cfg st s)
      (h : ∀ x ∈ s.markers, x.id = i →
        (x.className == cfg.MARKER_CLASS_NAME) = true) :
      Reach cfg st (clearMarkerById s i)
  | clearW (s : EditorState α) (i : Nat) (hr : Reach cfg st s)
      (h : ∀ x ∈ s.lineWidgets, x.id = i →
        (x.className == cfg.lineWidgetClassName) = true) :
      Reach cfg st (clearWidgetById s i)
  | mark (s : EditorState α) (f t : Pos) (el : DomNode α)
      (hr : Reach cfg st s) :
      Reach cfg st (markText s f t cfg.MARKER_CLASS_NAME el)
  | addW (s : EditorState α) (l : Int) (nd : List (DomNode α))
      (hr : Reach cfg st s) :
      Reach cfg st (addLineWidget s l nd cfg.lineWidgetClassName)
  | updW (s : EditorState α) (i : Nat) (nd : List (DomNode α))
      (hr : Reach cfg st s)
      (h : ∀ x ∈ s.lineWidgets, x.id = i →
        (x.className == cfg.lineWidgetClassName) = true) :
      Reach cfg st (updateWidgetNode s i nd)

theorem Reach.untagM {cfg : Config E α} {st s : EditorState α}
    (h : Reach cfg st s) : untaggedMarkers cfg s = untaggedMarkers cfg st := by
  induction h with
  | refl => rfl
  | clearM s i hr hj ih => rw [clearMarkerById_untag cfg s i hj, ih]
  | clearW s i hr hj ih =>
      unfold untaggedMarkers at *
      rw [(clearWidgetById_markers s i).1, ih]
  | mark s f t el hr ih => rw [markText_untag, ih]
  | addW s l nd hr ih =>
      unfold untaggedMarkers at *
      rw [addLineWidget_markers, ih]
  | updW s i nd hr hj ih =>
      unfold untaggedMarkers at *
      rw [updateWidgetNode_markers, ih]

theorem Reach.untagW {cfg : Config E α} {st s : EditorState α}
    (h : Reach cfg st s) : untaggedWidgets cfg s = untaggedWidgets cfg st := by
  induction h with
  | refl => rfl
  | clearM s i hr hj ih =>
      unfold untaggedWidgets at *
      rw [(clearMarkerById_widgets s i).1, ih]
  | clearW s i hr hj ih => rw [clearWidgetById_untag cfg s i hj, ih]
  | mark s f t el hr ih =>
      unfold untaggedWidgets at *
      unfold markText
      exact ih
  | addW s l nd hr ih => rw [addLineWidget_untag, ih]
  | updW s i nd hr hj ih => rw [updateWidgetNode_untag cfg s i nd hj, ih]

theorem Reach.wf {cfg : Config E α} {st s : EditorState α}
    (h : Reach cfg st s) (hwf : WFIds st) : WFIds s := by
  induction h with
  | refl => exact hwf
  | clearM s i hr hj ih => exact WFIds_clearMarkerById ih i
  | clearW s i hr hj ih => exact WFIds_clearWidgetById ih i
  | mark s f t el hr ih => exact WFIds_markText ih f t _ el
  | addW s l nd hr ih => exact WFIds_addLineWidget ih l nd _
  | updW s i nd hr hj ih => exact WFIds_updateWidgetNode ih i nd

theorem Reach.trans {cfg : Config E α} {st s s' : EditorState α}
    (h1 : Reach cfg st s) (h2 : Reach cfg s s') : Reach cfg st s' := by
  induction h2 with
  | refl => exact h1
  | clearM s2 i hr hj ih => exact Reach.clearM s2 i ih hj
  | clearW s2 i hr hj ih => exact Reach.clearW s2 i ih hj
  | mark s2 f t el hr ih => exact Reach.mark s2 f t el ih
  | addW s2 l nd hr ih => exact Reach.addW s2 l nd ih
  | updW s2 i nd hr hj ih => exact Reach.updW s2 i nd ih hj

/-- Distinct-identity injectivity: two stored markers sharing an identity
are the same marker. -/
theorem marker_id_inj {st : EditorState α} (hwf : WFIds st)
    {x m : TextMarker α} (hx : x ∈ st.markers) (hm : m ∈ st.markers)
    (hid : x.id = m.id) : x = m :=
  List.inj_on_of_nodup_map hwf.2.2.1 hx hm hid

theorem widget_id_inj {st : EditorState α} (hwf : WFIds st)
    {x w : LineWidget α} (hx : x ∈ st.lineWidgets)
    (hw : w ∈ st.lineWidgets) (hid : x.id = w.id) : x = w :=
  List.inj_on_of_nodup_map hwf.2.2.2 hx hw hid

theorem findLineWidgetAtLine_mem_pred {st : EditorState α} {l : Int}
    {cls : String} {w : LineWidget α}
    (h : findLineWidgetAtLine st l cls = some w) :
    w ∈ st.lineWidgets ∧ (w.line == l) = true ∧ (w.className == cls) = true
    := by
  unfold findLineWidgetAtLine at h
  have hh := find?_mem_and_pred h
  have h2 := hh.2
  rw [Bool.and_eq_true] at h2
  exact ⟨hh.1, h2.1, h2.2⟩

/-- The invariant carried through the `findMarks(...).find(...)` fold: the
current store is reachable, its decorations form a subset of the initial
ones, and the recorded `existingMarker` / `existingLineWidget` are initial,
engine-class decorations. -/
def SweepInv (cfg : Config E α) (st : EditorState α)
    (acc : EditorState α × Option (TextMarker α) × Option (LineWidget α)) :
    Prop :=
  Reach cfg st acc.1 ∧
  (∀ x ∈ acc.1.markers, x ∈ st.markers) ∧
  (∀ x ∈ acc.1.lineWidgets, x ∈ st.lineWidgets) ∧
  (∀ m', acc.2.1 = some m' → m' ∈ st.markers ∧
    (m'.className == cfg.MARKER_CLASS_NAME) = true) ∧
  (∀ w', acc.2.2 = some w' → w' ∈ st.lineWidgets ∧
    (w'.className == cfg.lineWidgetClassName) = true)

theorem sweepStep_inv (cfg : Config E α) (st : EditorState α) (f t : Pos)
    (hwf : WFIds st) (m : TextMarker α) (hm : m ∈ st.markers)
    (acc : EditorState α × Option (TextMarker α) × Option (LineWidget α))
    (hinv : SweepInv cfg st acc) :
    SweepInv cfg st (sweepStep cfg f t acc m) := by
  obtain ⟨s0, exM0, exW0⟩ := acc
  obtain ⟨hre, hsubM, hsubW, hexM, hexW⟩ := hinv
  by_cases hc : (m.className == cfg.MARKER_CLASS_NAME) = true
  case neg =>
    rw [sweepStep_untagged cfg f t _ m (by simpa using hc)]
    exact ⟨hre, hsubM, hsubW, hexM, hexW⟩
  case pos =>
    have hjM : ∀ x ∈ s0.markers, x.id = m.id →
        (x.className == cfg.MARKER_CLASS_NAME) = true := by
      intro x hx hid
      rw [marker_id_inj hwf (hsubM x hx) hm hid]
      exact hc
    rcases hfw : findLineWidgetAtLine s0 t.line cfg.lineWidgetClassName
        with _ | w'
    · rcases hmm : (m.mfrom.line != f.line || m.mto.line != t.line)
          with _ | _
      · rcases exM0 with _ | m0
        · have hres : sweepStep cfg f t (s0, none, exW0) m =
              (clearMarkerById s0 m.id, none, none) := by
            simp [sweepStep, hc, hfw, hmm]
          rw [hres]
          refine ⟨Reach.clearM _ _ hre hjM, ?_, ?_, ?_, ?_⟩
          · exact fun x hx =>
              hsubM x (clearMarkerById_markers_subset s0 m.id x hx)
          · exact fun x hx => hsubW x
              (by rwa [(clearMarkerById_widgets s0 m.id).1] at hx)
          · intro m' h
            cases h
          · intro w2 h
            cases h
        · have hres : sweepStep cfg f t (s0, some m0, exW0) m =
              (s0, some m0, none) := by
            simp [sweepStep, hc, hfw, hmm]
          rw [hres]
          refine ⟨hre, hsubM, hsubW, ?_, ?_⟩
          · intro m' h
            injection h with h2
            rw [← h2]
            exact hexM m0 rfl
          · intro w2 h
            cases h
      · have hres : sweepStep cfg f t (s0, exM0, exW0) m =
            (clearMarkerById s0 m.id, exM0, none) := by
          simp [sweepStep, hc, hfw, hmm]
        rw [hres]
        refine ⟨Reach.clearM _ _ hre hjM, ?_, ?_, hexM, ?_⟩
        · exact fun x hx =>
            hsubM x (clearMarkerById_markers_subset s0 m.id x hx)
        · exact fun x hx => hsubW x
            (by rwa [(clearMarkerById_widgets s0 m.id).1] at hx)
        · intro w2 h
          cases h
    · obtain ⟨hw'mem, hw'line, hw'cls⟩ := findLineWidgetAtLine_mem_pred hfw
      rcases hmm : (m.mfrom.line != f.line || m.mto.line != t.line)
          with _ | _
      · have hres : sweepStep cfg f t (s0, exM0, exW0) m =
            (s0, some m, some w') := by
          simp [sweepStep, hc, hfw, hmm]
        rw [hres]
        refine ⟨hre, hsubM, hsubW, ?_, ?_⟩
        · intro m' h
          injection h with h2
          rw [← h2]
          exact ⟨hm, hc⟩
        · intro w2 h
          injection h with h2
          rw [← h2]
          exact ⟨hsubW w' hw'mem, hw'cls⟩
      · have hjW : ∀ x ∈ (clearMarkerById s0 m.id).lineWidgets,
            x.id = w'.id →
            (x.className == cfg.lineWidgetClassName) = true := by
          intro x hx hid
          rw [(clearMarkerById_widgets s0 m.id).1] at hx
          rw [widget_id_inj hwf (hsubW x hx) (hsubW w' hw'mem) hid]
          exact hw'cls
        have hres : sweepStep cfg f t (s0, exM0, exW0) m =
            (clearWidgetById (clearMarkerById s0 m.id) w'.id, some m,
              some w') := by
          simp [sweepStep, hc, hfw, hmm]
        rw [hres]
        refine ⟨Reach.clearW _ _ (Reach.clearM _ _ hre hjM) hjW, ?_, ?_,
          ?_, ?_⟩
        case refine_3 =>
          intro m' h
          injection h with h2
          rw [← h2]
          exact ⟨hm, hc⟩
        case refine_4 =>
          intro w2 h
          injection h with h2
          rw [← h2]
          exact ⟨hsubW w' hw'mem, hw'cls⟩
        · intro x hx
          rw [(clearWidgetById_markers _ _).1] at hx
          exact hsubM x (clearMarkerById_markers_subset s0 m.id x hx)
        · intro x hx
          have hx2 := clearWidgetById_subset _ _ x hx
          rw [(clearMarkerById_widgets s0 m.id).1] at hx2
          exact hsubW x hx2

theorem sweepFold_inv (cfg : Config E α) (st : EditorState α) (f t : Pos)
    (hwf : WFIds st) :
    ∀ (L : List (TextMarker α)), (∀ m ∈ L, m ∈ st.markers) →
    ∀ acc, SweepInv cfg st acc →
      SweepInv cfg st (L.foldl (sweepStep cfg f t) acc)
  | [], _, _, h => h
  | m :: L, hL, acc, h => by
      rw [List.foldl_cons]
      exact sweepFold_inv cfg st f t hwf L
        (fun x hx => hL x (List.mem_cons_of_mem m hx)) _
        (sweepStep_inv cfg st f t hwf m (hL m (List.mem_cons_self m L)) acc h)

theorem sweep_inv (cfg : Config E α) (st : EditorState α) (f t : Pos)
    (hwf : WFIds st) : SweepInv cfg st (sweep cfg st f t) := by
  apply sweepFold_inv cfg st f t hwf (findMarks st f t)
    (fun m hm => List.mem_of_mem_filter hm) (st, none, none)
  refine ⟨Reach.refl, fun x hx => hx, fun x hx => hx, ?_, ?_⟩
  · intro m' h
    cases h
  · intro w' h
    cases h

theorem strayClearGo_reach (cfg : Config E α) (st : EditorState α)
    (hwf : WFIds st) :
    ∀ (n : Nat) (s : EditorState α) (l : Int), Reach cfg st s →
      (∀ x ∈ s.lineWidgets, x ∈ st.lineWidgets) →
      Reach cfg st (strayClearGo cfg s l n) ∧
      (∀ x ∈ (strayClearGo cfg s l n).lineWidgets, x ∈ st.lineWidgets) ∧
      (strayClearGo cfg s l n).markers = s.markers
  | 0, s, l, hre, hsub => ⟨hre, hsub, rfl⟩
  | n + 1, s, l, hre, hsub => by
      unfold strayClearGo
      rcases hfw : findLineWidgetAtLine s l cfg.lineWidgetClassName
          with _ | w
      · exact strayClearGo_reach cfg st hwf n s (l + 1) hre hsub
      · obtain ⟨hwmem, hwline, hwcls⟩ := findLineWidgetAtLine_mem_pred hfw
        have hj : ∀ x ∈ s.lineWidgets, x.id = w.id →
            (x.className == cfg.lineWidgetClassName) = true := by
          intro x hx hid
          rw [widget_id_inj hwf (hsub x hx) (hsub w hwmem) hid]
          exact hwcls
        have hre2 := Reach.clearW s w.id hre hj
        have hsub2 : ∀ x ∈ (clearWidgetById s w.id).lineWidgets,
            x ∈ st.lineWidgets :=
          fun x hx => hsub x (clearWidgetById_subset s w.id x hx)
        have hrec := strayClearGo_reach cfg st hwf n
          (clearWidgetById s w.id) (l + 1) hre2 hsub2
        exact ⟨hrec.1, hrec.2.1,
          by rw [hrec.2.2, (clearWidgetById_markers s w.id).1]⟩

theorem editingTail_reach (cfg : Config E α) (st : EditorState α)
    (hwf : WFIds st) (s3 : EditorState α) (r : BlockRange) (f t : Pos)
    (content : String) (hre : Reach cfg st s3)
    (hsub : ∀ x ∈ s3.lineWidgets, x ∈ st.lineWidgets) :
    Reach cfg st (editingTail cfg s3 r f t content).1 := by
  unfold editingTail
  rcases hfw : findLineWidgetAtLine s3 t.line cfg.lineWidgetClassName
      with _ | w
  · cases hrwe : cfg.renderWhenEditing
    · simp only [hrwe, Bool.false_eq_true, if_false, hfw]
      exact hre
    · simp only [hrwe, if_true, hfw]
      rcases hrnd : cfg.renderer r.beginMatch r.endMatch content f.line
          t.line with e | el
      · simp only [hrnd]
        exact hre
      · simp only [hrnd]
        exact Reach.addW _ _ _ hre
  · obtain ⟨hwmem, _, hwcls⟩ := findLineWidgetAtLine_mem_pred hfw
    have hj : ∀ x ∈ s3.lineWidgets, x.id = w.id →
        (x.className == cfg.lineWidgetClassName) = true := by
      intro x hx hid
      rw [widget_id_inj hwf (hsub x hx) (hsub w hwmem) hid]
      exact hwcls
    cases hrwe : cfg.renderWhenEditing
    · simp only [hrwe, Bool.false_eq_true, if_false, hfw]
      exact Reach.clearW _ _ hre hj
    · simp only [hrwe, if_true, hfw]
      have hre4 := Reach.updW s3 w.id [] hre hj
      rcases hrnd : cfg.renderer r.beginMatch r.endMatch content f.line
          t.line with e | el
      · simp only [hrnd]
        exact hre4
      · simp only [hrnd]
        refine Reach.updW _ _ _ hre4 ?_
        intro x hx hid
        simp only [updateWidgetNode] at hx
        obtain ⟨y, hy, hxy⟩ := List.mem_map.mp hx
        by_cases hyid : y.id = w.id
        · have hy_tag := hj y hy hyid
          rw [← hxy]
          simpa [hyid] using hy_tag
        · rw [← hxy] at hid
          simp [hyid] at hid

theorem markRange_reach (cfg : Config E α) (st : EditorState α)
    (r : BlockRange) (hwf : WFIds st) :
    Reach cfg st (markRange cfg st r).1 := by
  have hinv := sweep_inv cfg st (rFrom r) (rTo st.doc r) hwf
  rcases hsw : sweep cfg st (rFrom r) (rTo st.doc r) with ⟨s1, exM, exW⟩
  rw [hsw] at hinv
  obtain ⟨hre1, hsubM1, hsubW1, hexM1, hexW1⟩ := hinv
  obtain ⟨hre2, hsubW2, hmEq2⟩ := strayClearGo_reach cfg st hwf
    ((rTo st.doc r).line - (rFrom r).line).toNat s1 (rFrom r).line hre1
    hsubW1
  have hsubM2 : ∀ x ∈ (strayClearGo cfg s1 (rFrom r).line
      ((rTo st.doc r).line - (rFrom r).line).toNat).markers,
      x ∈ st.markers := by
    rw [hmEq2]
    exact hsubM1
  set st2 := strayClearGo cfg s1 (rFrom r).line
    ((rTo st.doc r).line - (rFrom r).line).toNat with hst2
  simp only [markRange, hsw, strayClear]
  by_cases hbr : (isRangeSelected (rFrom r) (rTo st.doc r) st.selection &&
      isCursorOutRange st.cursor (rFrom r) (rTo st.doc r)) = true
  · simp only [hbr, if_true]
    rcases exM with _ | m
    · exact hre2
    · have hm := hexM1 m rfl
      have hjM : ∀ x ∈ st2.markers, x.id = m.id →
          (x.className == cfg.MARKER_CLASS_NAME) = true := by
        intro x hx hid
        rw [marker_id_inj hwf (hsubM2 x hx) hm.1 hid]
        exact hm.2
      rcases exW with _ | w
      · exact Reach.clearM _ _ hre2 hjM
      · have hw := hexW1 w rfl
        refine Reach.clearW _ _ (Reach.clearM _ _ hre2 hjM) ?_
        intro x hx hid
        rw [(clearMarkerById_widgets st2 m.id).1] at hx
        rw [widget_id_inj hwf (hsubW2 x hx) hw.1 hid]
        exact hw.2
  · simp only [Bool.not_eq_true] at hbr
    simp only [hbr, Bool.false_eq_true, if_false]
    by_cases hco : isCursorOutRange st.cursor (rFrom r) (rTo st.doc r)
        = true
    · simp only [hco, if_true]
      rcases exM with _ | m
      · rcases hfw2 : findLineWidgetAtLine st2 (rTo st.doc r).line
            cfg.lineWidgetClassName with _ | w2
        · rcases hspr : cfg.spanRenderer () with e | sp
          · simp only [collapseBranch, hspr]
            exact hre2
          · simp only [collapseBranch, hspr]
            rcases hrnd : cfg.renderer r.beginMatch r.endMatch
                (blockContent st.doc r) (rFrom r).line (rTo st.doc r).line
                with e | el
            · simp only [hrnd]
              exact Reach.mark _ _ _ _ hre2
            · simp only [hrnd]
              exact Reach.addW _ _ _ (Reach.mark _ _ _ _ hre2)
        · obtain ⟨hw2mem, _, hw2cls⟩ := findLineWidgetAtLine_mem_pred hfw2
          have hre3 : Reach cfg st (clearWidgetById st2 w2.id) := by
            refine Reach.clearW _ _ hre2 ?_
            intro x hx hid
            rw [widget_id_inj hwf (hsubW2 x hx) (hsubW2 w2 hw2mem) hid]
            exact hw2cls
          rcases hspr : cfg.spanRenderer () with e | sp
          · simp only [collapseBranch, hspr]
            exact hre3
          · simp only [collapseBranch, hspr]
            rcases hrnd : cfg.renderer r.beginMatch r.endMatch
                (blockContent st.doc r) (rFrom r).line (rTo st.doc r).line
                with e | el
            · simp only [hrnd]
              exact Reach.mark _ _ _ _ hre3
            · simp only [hrnd]
              exact Reach.addW _ _ _ (Reach.mark _ _ _ _ hre3)
      · exact hre2
    · simp only [Bool.not_eq_true] at hco
      simp only [hco, Bool.false_eq_true, if_false]
      rcases exM with _ | m
      · exact editingTail_reach cfg st hwf st2 r (rFrom r) (rTo st.doc r)
          (blockContent st.doc r) hre2 hsubW2
      · have hm := hexM1 m rfl
        have hjM : ∀ x ∈ st2.markers, x.id = m.id →
            (x.className == cfg.MARKER_CLASS_NAME) = true := by
          intro x hx hid
          rw [marker_id_inj hwf (hsubM2 x hx) hm.1 hid]
          exact hm.2
        refine editingTail_reach cfg st hwf (clearMarkerById st2 m.id) r
          (rFrom r) (rTo st.doc r) (blockContent st.doc r)
          (Reach.clearM _ _ hre2 hjM) ?_
        intro x hx
        rw [(clearMarkerById_widgets st2 m.id).1] at hx
        exact hsubW2 x hx

theorem markRanges_reach (cfg : Config E α) :
    ∀ (ranges : List BlockRange) (st : EditorState α), WFIds st →
      Reach cfg st (markRanges cfg st ranges).1
  | [], _, _ => Reach.refl
  | r :: rs, st, hwf => by
      unfold markRanges
      rcases hmr : markRange cfg st r with ⟨s1, err⟩
      have hre1 : Reach cfg st s1 := by
        have hh := markRange_reach cfg st r hwf
        rw [hmr] at hh
        exact hh
      rcases err with _ | e
      · simp only []
        exact Reach.trans hre1 (markRanges_reach cfg rs s1 (hre1.wf hwf))
      · exact hre1

theorem process_reach (cfg : Config E α) (st : EditorState α)
    (liB liE : Nat) (asv : Bool) (hwf : WFIds st) :
    Reach cfg st (process cfg st liB liE asv).1 := by
  unfold process
  rcases hscan : scan st.doc cfg.blockStartTokenRegexp cfg.blockEndTokenRegex
      st.viewport asv liB liE with ⟨ranges, l1, l2⟩
  by_cases hr : ranges.isEmpty = true
  · simp only [hr, if_true]
    exact Reach.refl
  · simp only [hr, Bool.false_eq_true, if_false]
    rcases hmr : markRanges cfg st ranges with ⟨s1, err⟩
    have hh := markRanges_reach cfg ranges st hwf
    rw [hmr] at hh
    exact hh

/-! ## C9: the engine touches only its own decorations -/

/-- C9: a pass of `process` preserves, element for element, every marker
whose class name differs from the engine's marker class tag and every line
widget whose class name differs from the derived line-widget class name —
clears and in-place updates act only on engine-class decorations, and every
decoration the pass creates carries the engine's class names (otherwise the
preserved lists would change). -/
theorem C9_only_engine_decorations (cfg : Config E α) (st : EditorState α)
    (liB liE : Nat) (asv : Bool) (hwf : WFIds st) :
    untaggedMarkers cfg (process cfg st liB liE asv).1 =
      untaggedMarkers cfg st ∧
    untaggedWidgets cfg (process cfg st liB liE asv).1 =
      untaggedWidgets cfg st :=
  ⟨(process_reach cfg st liB liE asv hwf).untagM,
    (process_reach cfg st liB liE asv hwf).untagW⟩

/-- A store holding decorations of another plugin (different class names)
alongside nothing of the engine's, over the sample document. -/
def foreignState : EditorState String :=
  { cleanSampleState ⟨5, 0⟩ with
    markers := [⟨0, ⟨2, 0⟩, ⟨2, 1⟩, "other-marker", DomNode.rendered "x"⟩],
    lineWidgets := [⟨1, 3, "other-widget", []⟩],
    nextId := 2 }

/-- C9 (witness): a full-document pass over a store holding another
plugin's marker and widget leaves them untouched. -/
theorem C9_only_engine_decorations_witness :
    untaggedMarkers (captureCfg true)
      (process (captureCfg true) foreignState 0 0 true).1 =
      untaggedMarkers (captureCfg true) foreignState ∧
    untaggedWidgets (captureCfg true)
      (process (captureCfg true) foreignState 0 0 true).1 =
      untaggedWidgets (captureCfg true) foreignState :=
  C9_only_engine_decorations (captureCfg true) foreignState 0 0 true
    (by unfold WFIds; decide)

/-! ## Well-formedness of the viewport-mode scan output -/

theorem backoffGo_some_facts (doc : List String) (ere : JSRegex) (pb : Int)
    (bm : Option (Nat × Nat)) :
    ∀ (n k li : Nat) (r2 : BlockRange),
      (backoffGo doc ere pb bm li k n).1 = some r2 →
      r2.fromLine = pb ∧ (k : Int) ≤ r2.toLine
  | 0, _, _, _, h => by cases h
  | n + 1, k, li, r2, h => by
      unfold backoffGo at h
      by_cases ht : (ere.test (getLineI doc k) li).1 = true
      · simp only [ht, if_true] at h
        injection h with h2
        rw [← h2]
        exact ⟨rfl, le_refl _⟩
      · simp only [ht, Bool.false_eq_true, if_false] at h
        obtain ⟨h1, h2⟩ := backoffGo_some_facts doc ere pb bm n (k + 1) _ r2 h
        refine ⟨h1, le_trans ?_ h2⟩
        exact_mod_cast Nat.le_succ k

/-- In viewport mode the emitted list — back-off range included — is
strictly increasing with `fromLine < toLine` throughout. -/
theorem scan_viewport_wf (doc : List String) (bre ere : JSRegex)
    (vp : Viewport) (liB liE : Nat) :
    ((scan doc bre ere vp false liB liE).1).Pairwise
      (fun a b => a.toLine < b.fromLine) ∧
    ∀ r ∈ (scan doc bre ere vp false liB liE).1, r.fromLine < r.toLine := by
  have h0 : ScanInv 0 (⟨[], false, -1, none, liB, liE⟩ : ScanSt) := by
    refine ⟨List.Pairwise.nil, by simp, ?_⟩
    intro h
    exact absurd h (by simp)
  have hinv := scanInv_steps doc bre ere vp.vfrom vp.vto 0 _ h0
  simp only [scan, Bool.false_eq_true, if_false]
  set st := scanLines doc bre ere vp.vfrom
    (⟨[], false, -1, none, liB, liE⟩ : ScanSt) 0 vp.vto with hst
  rw [show (0 + vp.vto) = vp.vto from Nat.zero_add vp.vto] at hinv
  obtain ⟨hp, hall, hopen⟩ := hinv
  by_cases hm : st.meetBeginToken = true
  · simp only [hm, if_true]
    obtain ⟨hpb0, hpbi, hpbr⟩ := hopen hm
    rcases hbo : backoffGo doc ere st.prevBeginTokenLineNumber
        st.beginMatchSt st.endLI vp.vto (doc.length - vp.vto) with ⟨r?, li⟩
    rcases r? with _ | r2
    · simp only []
      exact ⟨hp, fun r hr => (hall r hr).1⟩
    · simp only []
      obtain ⟨hfrom, hto⟩ := backoffGo_some_facts doc ere
        st.prevBeginTokenLineNumber st.beginMatchSt (doc.length - vp.vto)
        vp.vto st.endLI r2 (by rw [hbo])
      constructor
      · rw [List.pairwise_append]
        refine ⟨hp, List.pairwise_singleton _ _, fun a ha b hb => ?_⟩
        rw [List.mem_singleton] at hb
        rw [hb, hfrom]
        exact hpbr a ha
      · intro r hr
        rcases List.mem_append.mp hr with h1 | h1
        · exact (hall r h1).1
        · rw [List.mem_singleton] at h1
          rw [h1, hfrom]
          exact lt_of_lt_of_le hpbi hto
  · simp only [Bool.not_eq_true] at hm
    simp only [hm, Bool.false_eq_true, if_false]
    exact ⟨hp, fun r hr => (hall r hr).1⟩

/-! ## Canonical per-block decoration states (for the idempotence claim) -/

/-- Equality of every state component the reconciler observes and the
idempotence property compares — all but the DOM-mutation counter. -/
def StoreEq (s s' : EditorState α) : Prop :=
  s'.doc = s.doc ∧ s'.cursor = s.cursor ∧ s'.selection = s.selection ∧
  s'.viewport = s.viewport ∧ s'.markers = s.markers ∧
  s'.lineWidgets = s.lineWidgets ∧ s'.nextId = s.nextId

theorem StoreEq.refl (s : EditorState α) : StoreEq s s :=
  ⟨rfl, rfl, rfl, rfl, rfl, rfl, rfl⟩

theorem StoreEq_trans {s1 s2 s3 : EditorState α} (h1 : StoreEq s1 s2)
    (h2 : StoreEq s2 s3) : StoreEq s1 s3 := by
  obtain ⟨a1, b1, c1, d1, e1, f1, g1⟩ := h1
  obtain ⟨a2, b2, c2, d2, e2, f2, g2⟩ := h2
  exact ⟨a2.trans a1, b2.trans b1, c2.trans c1, d2.trans d1, e2.trans e1,
    f2.trans f1, g2.trans g1⟩

/-- No engine decoration anywhere on the block's window: no tagged marker
overlapping it, and no engine widget on any of its lines, end line
included. -/
def cleanWin (cfg : Config E α) (doc : List String) (s : EditorState α)
    (r : BlockRange) : Prop :=
  taggedMarks cfg s (rFrom r) (rTo doc r) = [] ∧
  ∀ k : Nat, k ≤ (r.toLine - r.fromLine).toNat →
    findLineWidgetAtLine s (r.fromLine + (k : Int)) cfg.lineWidgetClassName
      = none

/-- The canonical after-pass decoration state of one discovered block, for
a pure block renderer `rf`: raw when selected-and-cursor-outside (or when
editing without `renderWhenEditing`), collapsed pair when the cursor is
outside, live widget when editing with `renderWhenEditing`. -/
def Canon (cfg : Config E α) (doc : List String) (cur : Pos)
    (sel : Option (Pos × Pos))
    (rf : Option (Nat × Nat) → Option (Nat × Nat) → String → Int → Int → α)
    (s : EditorState α) (r : BlockRange) : Prop :=
  if isRangeSelected (rFrom r) (rTo doc r) sel &&
      isCursorOutRange cur (rFrom r) (rTo doc r) then
    cleanWin cfg doc s r
  else if isCursorOutRange cur (rFrom r) (rTo doc r) then
    (∃ M, taggedMarks cfg s (rFrom r) (rTo doc r) = [M] ∧
      M.mfrom.line = (rFrom r).line ∧ M.mto.line = (rTo doc r).line) ∧
    (findLineWidgetAtLine s (rTo doc r).line
      cfg.lineWidgetClassName).isSome = true ∧
    (∀ k : Nat, k < (r.toLine - r.fromLine).toNat →
      findLineWidgetAtLine s (r.fromLine + (k : Int))
        cfg.lineWidgetClassName = none)
  else if cfg.renderWhenEditing then
    taggedMarks cfg s (rFrom r) (rTo doc r) = [] ∧
    (∃ W, findLineWidgetAtLine s (rTo doc r).line cfg.lineWidgetClassName
        = some W ∧
      W.node = [DomNode.rendered (rf r.beginMatch r.endMatch
        (blockContent doc r) r.fromLine r.toLine)]) ∧
    (∀ k : Nat, k < (r.toLine - r.fromLine).toNat →
      findLineWidgetAtLine s (r.fromLine + (k : Int))
        cfg.lineWidgetClassName = none)
  else cleanWin cfg doc s r

/-- `cleanWin` and `Canon` observe only the decoration store. -/
theorem cleanWin_storeEq {cfg : Config E α} {doc : List String}
    {s s' : EditorState α} (h : StoreEq s s') {r : BlockRange}
    (hc : cleanWin cfg doc s r) : cleanWin cfg doc s' r := by
  obtain ⟨_, _, _, _, hm, hw, _⟩ := h
  refine ⟨by rw [taggedMarks_congr cfg hm, hc.1], ?_⟩
  intro k hk
  rw [findLineWidgetAtLine_congr hw, hc.2 k hk]

theorem Canon_storeEq {cfg : Config E α} {doc : List String} {cur : Pos}
    {sel : Option (Pos × Pos)} {rf : Option (Nat × Nat) →
      Option (Nat × Nat) → String → Int → Int → α}
    {s s' : EditorState α} (h : StoreEq s s') {r : BlockRange}
    (hc : Canon cfg doc cur sel rf s r) : Canon cfg doc cur sel rf s' r := by
  have hm := h.2.2.2.2.1
  have hw := h.2.2.2.2.2.1
  unfold Canon at hc ⊢
  by_cases h1 : (isRangeSelected (rFrom r) (rTo doc r) sel &&
      isCursorOutRange cur (rFrom r) (rTo doc r)) = true
  · rw [if_pos h1] at hc ⊢
    exact cleanWin_storeEq h hc
  · rw [if_neg h1] at hc ⊢
    by_cases h2 : isCursorOutRange cur (rFrom r) (rTo doc r) = true
    · rw [if_pos h2] at hc ⊢
      obtain ⟨⟨M, hM1, hM2, hM3⟩, hb, h3⟩ := hc
      refine ⟨⟨M, by rw [taggedMarks_congr cfg hm, hM1], hM2, hM3⟩, ?_, ?_⟩
      · rw [findLineWidgetAtLine_congr hw]
        exact hb
      · intro k hk
        rw [findLineWidgetAtLine_congr hw, h3 k hk]
    · rw [if_neg h2] at hc ⊢
      by_cases h3 : cfg.renderWhenEditing = true
      · rw [if_pos h3] at hc ⊢
        obtain ⟨ha, ⟨W, hW1, hW2⟩, hmids⟩ := hc
        refine ⟨by rw [taggedMarks_congr cfg hm, ha], ⟨W, ?_, hW2⟩, ?_⟩
        · rw [findLineWidgetAtLine_congr hw]
          exact hW1
        · intro k hk
          rw [findLineWidgetAtLine_congr hw, hmids k hk]
      · rw [if_neg h3] at hc ⊢
        exact cleanWin_storeEq h hc

/-! ### Stability of the window queries under operations elsewhere -/

theorem findLineWidgetAtLine_markText (s : EditorState α) (f t : Pos)
    (cls : String) (el : DomNode α) (l : Int) (cls2 : String) :
    findLineWidgetAtLine (markText s f t cls el) l cls2 =
      findLineWidgetAtLine s l cls2 :=
  findLineWidgetAtLine_congr rfl l cls2

theorem findLineWidgetAtLine_add_other (s : EditorState α) {l l2 : Int}
    (hne : l ≠ l2) (nd : List (DomNode α)) (cls2 cls : String) :
    findLineWidgetAtLine (addLineWidget s l2 nd cls2) l cls =
      findLineWidgetAtLine s l cls := by
  unfold findLineWidgetAtLine addLineWidget
  simp only [List.find?_append]
  have hnone : List.find?
      (fun w : LineWidget α => w.line == l && w.className == cls)
      [⟨s.nextId, l2, cls2, nd⟩] = none := by
    simp [Ne.symm hne]
  rw [hnone]
  rcases List.find?
      (fun w : LineWidget α => w.line == l && w.className == cls)
      s.lineWidgets with _ | w <;> rfl

theorem taggedMarks_markText_no_overlap (cfg : Config E α)
    (s : EditorState α) (f t f2 t2 : Pos) (el : DomNode α)
    (hno : (Pos.lt f2 t && Pos.lt f t2) = false) :
    taggedMarks cfg (markText s f t cfg.MARKER_CLASS_NAME el) f2 t2 =
      taggedMarks cfg s f2 t2 := by
  unfold taggedMarks findMarks markText
  simp only [List.filter_append, hno]
  simp [List.filter_cons, hno]

theorem taggedMarks_markText_self (cfg : Config E α) (s : EditorState α)
    (f t : Pos) (el : DomNode α) (hlt : Pos.lt f t = true) :
    taggedMarks cfg (markText s f t cfg.MARKER_CLASS_NAME el) f t =
      taggedMarks cfg s f t ++
        [⟨s.nextId, f, t, cfg.MARKER_CLASS_NAME, el⟩] := by
  unfold taggedMarks findMarks markText
  simp [List.filter_append, List.filter_cons, hlt]

theorem taggedMarks_addLineWidget (cfg : Config E α) (s : EditorState α)
    (l : Int) (nd : List (DomNode α)) (cls : String) (f t : Pos) :
    taggedMarks cfg (addLineWidget s l nd cls) f t =
      taggedMarks cfg s f t :=
  taggedMarks_congr cfg rfl f t

theorem Pos.lt_eq_false_of_line_lt {p q : Pos} (h : q.line < p.line) :
    Pos.lt p q = false := by
  have h1 : ¬ (p.line < q.line) := by omega
  have h2 : ¬ (p.line = q.line) := by omega
  simp [Pos.lt, h1, h2]

theorem Pos.lt_eq_true_of_line_lt {p q : Pos} (h : p.line < q.line) :
    Pos.lt p q = true := by
  simp [Pos.lt, h]

theorem tline_eq (r : BlockRange) (hok : r.fromLine < r.toLine) :
    r.fromLine + (((r.toLine - r.fromLine).toNat : Nat) : Int) = r.toLine
    := by
  rw [Int.toNat_of_nonneg (by omega)]
  omega

/-- Reconciling a block whose window holds no engine decoration: the pass
succeeds and leaves the block in its canonical state, touching nothing
outside the block's lines. -/
theorem markRange_from_clean (cfg : Config E α) (doc : List String)
    (rf : Option (Nat × Nat) → Option (Nat × Nat) → String → Int → Int → α)
    (sp : α)
    (hrend : cfg.renderer = fun a b c d e => Except.ok (rf a b c d e))
    (hsp : cfg.spanRenderer = fun _ => Except.ok sp)
    (s : EditorState α) (r : BlockRange) (hdoc : s.doc = doc)
    (hok : r.fromLine < r.toLine) (hclean : cleanWin cfg doc s r)
    (hwf : WFIds s) :
    (markRange cfg s r).2 = none ∧
    Canon cfg doc s.cursor s.selection rf (markRange cfg s r).1 r ∧
    ((markRange cfg s r).1.doc = s.doc ∧
     (markRange cfg s r).1.cursor = s.cursor ∧
     (markRange cfg s r).1.selection = s.selection ∧
     (markRange cfg s r).1.viewport = s.viewport) ∧
    WFIds (markRange cfg s r).1 ∧
    (∀ (l : Int) (cls2 : String), l ≠ r.toLine →
      findLineWidgetAtLine (markRange cfg s r).1 l cls2 =
        findLineWidgetAtLine s l cls2) ∧
    (∀ f2 t2 : Pos, (Pos.lt f2 (rTo doc r) && Pos.lt (rFrom r) t2) = false →
      taggedMarks cfg (markRange cfg s r).1 f2 t2 =
        taggedMarks cfg s f2 t2) := by
  have hcnt := tline_eq r hok
  have hmids : midsClean cfg s r.fromLine (r.toLine - r.fromLine).toNat
      = true := by
    unfold midsClean
    rw [List.all_eq_true]
    intro k hk
    exact Option.isNone_iff_eq_none.mpr
      (hclean.2 k (le_of_lt (List.mem_range.mp hk)))
  have hsweep := sweep_no_tagged cfg s (rFrom r) (rTo doc r) hclean.1
  have hstray : strayClear cfg s (rFrom r).line (rTo doc r).line = s :=
    strayClear_of_midsClean cfg s _ _ hmids
  have hfwt : findLineWidgetAtLine s (rTo doc r).line
      cfg.lineWidgetClassName = none := by
    have hh := hclean.2 (r.toLine - r.fromLine).toNat (le_refl _)
    rw [hcnt] at hh
    exact hh
  have hfT : Pos.lt (rFrom r) (rTo doc r) = true :=
    Pos.lt_eq_true_of_line_lt (by simpa [rFrom, rTo] using hok)
  by_cases hselco : (isRangeSelected (rFrom r) (rTo doc r) s.selection &&
      isCursorOutRange s.cursor (rFrom r) (rTo doc r)) = true
  · -- selected and cursor outside: nothing happens, window stays raw
    have hres : markRange cfg s r = (s, none) := by
      simp only [markRange, hdoc, hsweep, hstray, hselco, if_true]
    rw [hres]
    refine ⟨rfl, ?_, ⟨rfl, rfl, rfl, rfl⟩, hwf,
      fun l cls2 _ => rfl, fun f2 t2 _ => rfl⟩
    unfold Canon
    rw [if_pos hselco]
    exact hclean
  · simp only [Bool.not_eq_true] at hselco
    by_cases hco : isCursorOutRange s.cursor (rFrom r) (rTo doc r) = true
    · -- cursor outside: create the collapsed marker + widget pair
      have hsel := hselco
      rw [hco, Bool.and_true] at hsel
      have hres : markRange cfg s r =
          (addLineWidget
            (markText s (rFrom r) (rTo doc r) cfg.MARKER_CLASS_NAME
              (DomNode.rendered sp))
            (rTo doc r).line
            [DomNode.rendered (rf r.beginMatch r.endMatch
              (blockContent doc r) (rFrom r).line (rTo doc r).line),
              DomNode.editButton]
            cfg.lineWidgetClassName, none) := by
        simp only [markRange, hdoc, hsweep, hstray, hselco, hsel,
          Bool.and_true, Bool.false_eq_true, if_false, hco, if_true, hfwt,
          collapseBranch, hsp, hrend]
      rw [hres]
      refine ⟨rfl, ?_, ⟨rfl, rfl, rfl, rfl⟩,
        WFIds_addLineWidget (WFIds_markText hwf _ _ _ _) _ _ _, ?_, ?_⟩
      · unfold Canon
        rw [if_neg (by rw [hselco]; simp), if_pos hco]
        refine ⟨⟨⟨s.nextId, rFrom r, rTo doc r, cfg.MARKER_CLASS_NAME,
          DomNode.rendered sp⟩, ?_, rfl, rfl⟩, ?_, ?_⟩
        · rw [taggedMarks_addLineWidget,
            taggedMarks_markText_self cfg s _ _ _ hfT, hclean.1]
          rfl
        · rw [findLineWidgetAtLine_add_self _ _ _ _
            (by rw [findLineWidgetAtLine_markText]; exact hfwt)]
          rfl
        · intro k hk
          have hne : r.fromLine + (k : Int) ≠ (rTo doc r).line := by
            show r.fromLine + (k : Int) ≠ r.toLine
            omega
          rw [findLineWidgetAtLine_add_other _ hne,
            findLineWidgetAtLine_markText]
          exact hclean.2 k (le_of_lt hk)
      · intro l cls2 hne
        have hne2 : l ≠ (rTo doc r).line := hne
        rw [findLineWidgetAtLine_add_other _ hne2,
          findLineWidgetAtLine_markText]
      · intro f2 t2 hno
        rw [taggedMarks_addLineWidget,
          taggedMarks_markText_no_overlap cfg s _ _ _ _ _ hno]
    · simp only [Bool.not_eq_true] at hco
      by_cases hrwe : cfg.renderWhenEditing = true
      · -- cursor inside with renderWhenEditing: create the live widget
        have hres : markRange cfg s r =
            (addLineWidget s (rTo doc r).line
              [DomNode.rendered (rf r.beginMatch r.endMatch
                (blockContent doc r) (rFrom r).line (rTo doc r).line)]
              cfg.lineWidgetClassName, none) := by
          simp only [markRange, hdoc, hsweep, hstray, hselco,
            Bool.and_false, Bool.false_eq_true, if_false, hco, editingTail,
            hrwe, if_true, hfwt, hrend]
        rw [hres]
        refine ⟨rfl, ?_, ⟨rfl, rfl, rfl, rfl⟩,
          WFIds_addLineWidget hwf _ _ _, ?_, ?_⟩
        · unfold Canon
          rw [if_neg (by rw [hselco]; simp), if_neg (by rw [hco]; simp),
            if_pos hrwe]
          refine ⟨?_, ⟨⟨s.nextId, (rTo doc r).line, cfg.lineWidgetClassName,
            _⟩, findLineWidgetAtLine_add_self _ _ _ _ hfwt, rfl⟩, ?_⟩
          · rw [taggedMarks_addLineWidget]
            exact hclean.1
          · intro k hk
            have hne : r.fromLine + (k : Int) ≠ (rTo doc r).line := by
              show r.fromLine + (k : Int) ≠ r.toLine
              omega
            rw [findLineWidgetAtLine_add_other _ hne]
            exact hclean.2 k (le_of_lt hk)
        · intro l cls2 hne
          exact findLineWidgetAtLine_add_other _ hne _ _ _
        · intro f2 t2 _
          exact taggedMarks_addLineWidget cfg s _ _ _ f2 t2
      · -- cursor inside without renderWhenEditing: window stays raw
        simp only [Bool.not_eq_true] at hrwe
        have hres : markRange cfg s r = (s, none) := by
          simp only [markRange, hdoc, hsweep, hstray, hselco,
            Bool.and_false, Bool.false_eq_true, if_false, hco, editingTail,
            hrwe, hfwt]
        rw [hres]
        refine ⟨rfl, ?_, ⟨rfl, rfl, rfl, rfl⟩, hwf,
          fun l cls2 _ => rfl, fun f2 t2 _ => rfl⟩
        unfold Canon
        rw [if_neg (by rw [hselco]; simp), if_neg (by rw [hco]; simp),
          if_neg (by rw [hrwe]; simp)]
        exact hclean

theorem WFIds_storeEq {s s' : EditorState α} (h : StoreEq s s')
    (hwf : WFIds s) : WFIds s' := by
  obtain ⟨_, _, _, _, hm, hw, hn⟩ := h
  rw [WFIds, hm, hw, hn]
  exact hwf

/-- On a clean window the sweep, the stray-widget loop and the end-line
widget lookup all come back empty. -/
theorem cleanWin_prelude (cfg : Config E α) (doc : List String)
    (s : EditorState α) (r : BlockRange) (hok : r.fromLine < r.toLine)
    (hclean : cleanWin cfg doc s r) :
    sweep cfg s (rFrom r) (rTo doc r) = (s, none, none) ∧
    strayClear cfg s (rFrom r).line (rTo doc r).line = s ∧
    findLineWidgetAtLine s (rTo doc r).line cfg.lineWidgetClassName = none
    := by
  have hcnt := tline_eq r hok
  have hmids : midsClean cfg s r.fromLine (r.toLine - r.fromLine).toNat
      = true := by
    unfold midsClean
    rw [List.all_eq_true]
    intro k hk
    exact Option.isNone_iff_eq_none.mpr
      (hclean.2 k (le_of_lt (List.mem_range.mp hk)))
  refine ⟨sweep_no_tagged cfg s (rFrom r) (rTo doc r) hclean.1,
    strayClear_of_midsClean cfg s _ _ hmids, ?_⟩
  have hh := hclean.2 (r.toLine - r.fromLine).toNat (le_refl _)
  rw [hcnt] at hh
  exact hh

/-- Emptying a widget's content and refilling it with what it already held
puts the widget list back exactly where it started. -/
theorem updateWidgetNode_twice_self {st : EditorState α} (hwf : WFIds st)
    {W : LineWidget α} (hmem : W ∈ st.lineWidgets) (nd : List (DomNode α)) :
    (updateWidgetNode (updateWidgetNode st W.id nd) W.id W.node).lineWidgets
      = st.lineWidgets := by
  show (st.lineWidgets.map
      (fun w => if w.id == W.id then { w with node := nd } else w)).map
      (fun w => if w.id == W.id then { w with node := W.node } else w)
    = st.lineWidgets
  rw [List.map_map]
  have hpt : ∀ w ∈ st.lineWidgets,
      ((fun w : LineWidget α =>
          if w.id == W.id then { w with node := W.node } else w) ∘
        (fun w : LineWidget α =>
          if w.id == W.id then { w with node := nd } else w)) w = id w := by
    intro w hw
    by_cases h : w.id = W.id
    · have hwW : w = W := widget_id_inj hwf hw hmem h
      subst hwW
      simp
    · simp [Function.comp, h]
  rw [List.map_congr_left hpt, List.map_id]

/-- Reconciling a block already in canonical state succeeds and leaves the
decoration store untouched; outside the `renderWhenEditing` rebuild branch
the state is returned without even a DOM mutation. -/
theorem markRange_from_canon (cfg : Config E α) (doc : List String)
    (rf : Option (Nat × Nat) → Option (Nat × Nat) → String → Int → Int → α)
    (hrend : cfg.renderer = fun a b c d e => Except.ok (rf a b c d e))
    (s : EditorState α) (r : BlockRange) (hdoc : s.doc = doc)
    (hok : r.fromLine < r.toLine)
    (hcanon : Canon cfg doc s.cursor s.selection rf s r)
    (hwf : WFIds s) :
    (markRange cfg s r).2 = none ∧
    StoreEq s (markRange cfg s r).1 ∧
    ((isCursorOutRange s.cursor (rFrom r) (rTo doc r) = true ∨
        cfg.renderWhenEditing = false) → (markRange cfg s r).1 = s) := by
  unfold Canon at hcanon
  by_cases hselco : (isRangeSelected (rFrom r) (rTo doc r) s.selection &&
      isCursorOutRange s.cursor (rFrom r) (rTo doc r)) = true
  · -- selected and cursor outside: canonical means raw, nothing to do
    rw [if_pos hselco] at hcanon
    obtain ⟨hsweep, hstray, _⟩ := cleanWin_prelude cfg doc s r hok hcanon
    have hres : markRange cfg s r = (s, none) := by
      simp only [markRange, hdoc, hsweep, hstray, hselco, if_true]
    rw [hres]
    exact ⟨rfl, StoreEq.refl s, fun _ => rfl⟩
  · rw [if_neg hselco] at hcanon
    simp only [Bool.not_eq_true] at hselco
    by_cases hco : isCursorOutRange s.cursor (rFrom r) (rTo doc r) = true
    · -- cursor outside: the stored pair is recognised and kept
      rw [if_pos hco] at hcanon
      obtain ⟨⟨M, hM1, hM2, hM3⟩, hb, hmid⟩ := hcanon
      obtain ⟨w, hw⟩ := Option.isSome_iff_exists.mp hb
      have hsel := hselco
      rw [hco, Bool.and_true] at hsel
      have htag : (M.className == cfg.MARKER_CLASS_NAME) = true :=
        tagged_of_mem_taggedMarks (by rw [hM1]; exact List.mem_cons_self M [])
      have hsw : sweep cfg s (rFrom r) (rTo doc r) = (s, some M, some w)
          := by
        rw [sweep_single_tagged cfg s _ _ M hM1]
        simp [sweepStep, htag, hw, hM2, hM3]
      have hmids : midsClean cfg s r.fromLine (r.toLine - r.fromLine).toNat
          = true := by
        unfold midsClean
        rw [List.all_eq_true]
        intro k hk
        exact Option.isNone_iff_eq_none.mpr (hmid k (List.mem_range.mp hk))
      have hstray : strayClear cfg s (rFrom r).line (rTo doc r).line = s :=
        strayClear_of_midsClean cfg s _ _ hmids
      have hres : markRange cfg s r = (s, none) := by
        simp only [markRange, hdoc, hsw, hstray, hselco, hsel,
          Bool.and_true, Bool.false_eq_true, if_false, hco, if_true]
      rw [hres]
      exact ⟨rfl, StoreEq.refl s, fun _ => rfl⟩
    · rw [if_neg hco] at hcanon
      simp only [Bool.not_eq_true] at hco
      by_cases hrwe : cfg.renderWhenEditing = true
      · -- editing with renderWhenEditing: the widget is rebuilt in place
        rw [if_pos hrwe] at hcanon
        obtain ⟨hM0, ⟨W, hW1, hW2⟩, hmid⟩ := hcanon
        have hsweep := sweep_no_tagged cfg s (rFrom r) (rTo doc r) hM0
        have hmids : midsClean cfg s r.fromLine
            (r.toLine - r.fromLine).toNat = true := by
          unfold midsClean
          rw [List.all_eq_true]
          intro k hk
          exact Option.isNone_iff_eq_none.mpr (hmid k (List.mem_range.mp hk))
        have hstray : strayClear cfg s (rFrom r).line (rTo doc r).line = s :=
          strayClear_of_midsClean cfg s _ _ hmids
        have hW2' : W.node = [DomNode.rendered (rf r.beginMatch r.endMatch
            (blockContent doc r) (rFrom r).line (rTo doc r).line)] := hW2
        have hres : markRange cfg s r =
            (updateWidgetNode (updateWidgetNode s W.id []) W.id
              [DomNode.rendered (rf r.beginMatch r.endMatch
                (blockContent doc r) (rFrom r).line (rTo doc r).line)],
              none) := by
          simp only [markRange, hdoc, hsweep, hstray, hselco,
            Bool.and_false, Bool.false_eq_true, if_false, hco, editingTail,
            hrwe, if_true, hW1, hrend]
        rw [hres]
        have hwmem : W ∈ s.lineWidgets :=
          mem_widgets_of_findLineWidgetAtLine hW1
        have hlw : (updateWidgetNode (updateWidgetNode s W.id []) W.id
            [DomNode.rendered (rf r.beginMatch r.endMatch
              (blockContent doc r) (rFrom r).line
              (rTo doc r).line)]).lineWidgets = s.lineWidgets := by
          rw [← hW2']
          exact updateWidgetNode_twice_self hwf hwmem []
        refine ⟨rfl, ⟨rfl, rfl, rfl, rfl, rfl, hlw, rfl⟩, ?_⟩
        intro h
        rcases h with h1 | h2
        · rw [hco] at h1
          cases h1
        · rw [h2] at hrwe
          cases hrwe
      · -- editing without renderWhenEditing: canonical means raw
        rw [if_neg hrwe] at hcanon
        simp only [Bool.not_eq_true] at hrwe
        obtain ⟨hsweep, hstray, hfwt⟩ := cleanWin_prelude cfg doc s r hok
          hcanon
        have hres : markRange cfg s r = (s, none) := by
          simp only [markRange, hdoc, hsweep, hstray, hselco,
            Bool.and_false, Bool.false_eq_true, if_false, hco, editingTail,
            hrwe, hfwt]
        rw [hres]
        exact ⟨rfl, StoreEq.refl s, fun _ => rfl⟩

theorem cleanWin_frame {cfg : Config E α} {doc : List String}
    {s s' : EditorState α} {r : BlockRange} (hok : r.fromLine < r.toLine)
    (hW : ∀ l : Int, r.fromLine ≤ l → l ≤ r.toLine →
      findLineWidgetAtLine s' l cfg.lineWidgetClassName =
        findLineWidgetAtLine s l cfg.lineWidgetClassName)
    (hM : taggedMarks cfg s' (rFrom r) (rTo doc r) =
      taggedMarks cfg s (rFrom r) (rTo doc r))
    (hc : cleanWin cfg doc s r) : cleanWin cfg doc s' r := by
  refine ⟨by rw [hM, hc.1], ?_⟩
  intro k hk
  rw [hW (r.fromLine + (k : Int)) (by omega) (by omega), hc.2 k hk]

theorem Canon_frame {cfg : Config E α} {doc : List String} {cur : Pos}
    {sel : Option (Pos × Pos)}
    {rf : Option (Nat × Nat) → Option (Nat × Nat) → String → Int → Int → α}
    {s s' : EditorState α} {r : BlockRange} (hok : r.fromLine < r.toLine)
    (hW : ∀ l : Int, r.fromLine ≤ l → l ≤ r.toLine →
      findLineWidgetAtLine s' l cfg.lineWidgetClassName =
        findLineWidgetAtLine s l cfg.lineWidgetClassName)
    (hM : taggedMarks cfg s' (rFrom r) (rTo doc r) =
      taggedMarks cfg s (rFrom r) (rTo doc r))
    (hc : Canon cfg doc cur sel rf s r) : Canon cfg doc cur sel rf s' r := by
  have hWt : findLineWidgetAtLine s' (rTo doc r).line
        cfg.lineWidgetClassName =
      findLineWidgetAtLine s (rTo doc r).line cfg.lineWidgetClassName :=
    hW (rTo doc r).line (le_of_lt hok) (le_refl r.toLine)
  unfold Canon at hc ⊢
  by_cases h1 : (isRangeSelected (rFrom r) (rTo doc r) sel &&
      isCursorOutRange cur (rFrom r) (rTo doc r)) = true
  · rw [if_pos h1] at hc ⊢
    exact cleanWin_frame hok hW hM hc
  · rw [if_neg h1] at hc ⊢
    by_cases h2 : isCursorOutRange cur (rFrom r) (rTo doc r) = true
    · rw [if_pos h2] at hc ⊢
      obtain ⟨⟨M, hM1, hM2, hM3⟩, hb, h3⟩ := hc
      refine ⟨⟨M, by rw [hM, hM1], hM2, hM3⟩, ?_, ?_⟩
      · rw [hWt]
        exact hb
      · intro k hk
        rw [hW (r.fromLine + (k : Int)) (by omega) (by omega), h3 k hk]
    · rw [if_neg h2] at hc ⊢
      by_cases h3 : cfg.renderWhenEditing = true
      · rw [if_pos h3] at hc ⊢
        obtain ⟨ha, ⟨W, hW1, hW2⟩, hmids⟩ := hc
        refine ⟨by rw [hM, ha], ⟨W, by rw [hWt]; exact hW1, hW2⟩, ?_⟩
        intro k hk
        rw [hW (r.fromLine + (k : Int)) (by omega) (by omega), hmids k hk]
      · rw [if_neg h3] at hc ⊢
        exact cleanWin_frame hok hW hM hc

/-- Under flagless token patterns the scan ignores the incoming `lastIndex`
values and passes them back unchanged. -/
theorem scan_flagless_key {doc : List String} {bre ere : JSRegex}
    (hb : bre.global = false) (he : ere.global = false) (vp : Viewport)
    (asv : Bool) (x y : Nat) :
    scan doc bre ere vp asv x y = ((scan doc bre ere vp asv 0 0).1, x, y)
    := by
  show scan doc bre ere vp asv x y = _
  simp only [scan]
  rw [show (⟨[], false, -1, none, x, y⟩ : ScanSt) =
        { (⟨[], false, -1, none, 0, 0⟩ : ScanSt) with
            beginLI := x, endLI := y } from rfl,
      scanLines_flagless_li hb he _]
  rw [show (⟨[], false, -1, none, 0, 0⟩ : ScanSt) =
        { (⟨[], false, -1, none, 0, 0⟩ : ScanSt) with
            beginLI := 0, endLI := 0 } from rfl,
      scanLines_flagless_li hb he _]
  set st0 := scanLines doc bre ere (if asv then 0 else vp.vfrom)
    (⟨[], false, -1, none, 0, 0⟩ : ScanSt) 0
    (if asv then doc.length else vp.vto) with hst0
  simp only []
  by_cases hm : st0.meetBeginToken <;> simp [hm]
  · rw [backoffGo_flagless he _ _ _ _ y, backoffGo_flagless he _ _ _ _ 0]
    rcases (backoffGo doc ere st0.prevBeginTokenLineNumber st0.beginMatchSt
      0 vp.vto (doc.length - vp.vto)).1 with _ | r <;> simp

/-- One full reconciliation pass over a sorted, disjoint range list,
starting from a store that is engine-clean on every window: the pass
succeeds, canonicalises every block, keeps the read-only fields, and leaves
lines and spans away from the windows untouched. -/
theorem markRanges_from_clean (cfg : Config E α) (doc : List String)
    (rf : Option (Nat × Nat) → Option (Nat × Nat) → String → Int → Int → α)
    (sp : α)
    (hrend : cfg.renderer = fun a b c d e => Except.ok (rf a b c d e))
    (hsp : cfg.spanRenderer = fun _ => Except.ok sp)
    (cur : Pos) (sel : Option (Pos × Pos)) :
    ∀ (rs : List BlockRange) (s : EditorState α),
      s.doc = doc → s.cursor = cur → s.selection = sel →
      rs.Pairwise (fun a b => a.toLine < b.fromLine) →
      (∀ r ∈ rs, r.fromLine < r.toLine) →
      (∀ r ∈ rs, cleanWin cfg doc s r) →
      WFIds s →
      (markRanges cfg s rs).2 = none ∧
      ((markRanges cfg s rs).1.doc = s.doc ∧
       (markRanges cfg s rs).1.cursor = s.cursor ∧
       (markRanges cfg s rs).1.selection = s.selection ∧
       (markRanges cfg s rs).1.viewport = s.viewport) ∧
      WFIds (markRanges cfg s rs).1 ∧
      (∀ r ∈ rs, Canon cfg doc cur sel rf (markRanges cfg s rs).1 r) ∧
      (∀ (l : Int) (cls2 : String), (∀ r ∈ rs, l ≠ r.toLine) →
        findLineWidgetAtLine (markRanges cfg s rs).1 l cls2 =
          findLineWidgetAtLine s l cls2) ∧
      (∀ f2 t2 : Pos,
        (∀ r ∈ rs, (Pos.lt f2 (rTo doc r) && Pos.lt (rFrom r) t2) = false) →
        taggedMarks cfg (markRanges cfg s rs).1 f2 t2 =
          taggedMarks cfg s f2 t2)
  | [], s, _, _, _, _, _, _, hwf =>
      ⟨rfl, ⟨rfl, rfl, rfl, rfl⟩, hwf,
        fun r hr => absurd hr (List.not_mem_nil r),
        fun _ _ _ => rfl, fun _ _ _ => rfl⟩
  | r :: rs, s, hdoc, hcur, hsel, hpair, hoks, hclean, hwf => by
      have hok : r.fromLine < r.toLine := hoks r (List.mem_cons_self r rs)
      have hdisj : ∀ r2 ∈ rs, r.toLine < r2.fromLine :=
        (List.pairwise_cons.mp hpair).1
      have hL1 := markRange_from_clean cfg doc rf sp hrend hsp s r hdoc hok
        (hclean r (List.mem_cons_self r rs)) hwf
      obtain ⟨herr, hcanon1, ⟨hd1, hc1, hsl1, hv1⟩, hwf1, hWf1, hMf1⟩ := hL1
      have hpair1 : markRange cfg s r = ((markRange cfg s r).1, none) := by
        rw [← herr]
      have hstep : markRanges cfg s (r :: rs) =
          markRanges cfg (markRange cfg s r).1 rs := by
        conv_lhs => rw [markRanges]
        rw [hpair1]
      have hdoc1 : (markRange cfg s r).1.doc = doc := by rw [hd1, hdoc]
      have hcur1 : (markRange cfg s r).1.cursor = cur := by rw [hc1, hcur]
      have hsel1 : (markRange cfg s r).1.selection = sel := by
        rw [hsl1, hsel]
      have hclean1 : ∀ r2 ∈ rs, cleanWin cfg doc (markRange cfg s r).1 r2
          := by
        intro r2 hr2
        refine cleanWin_frame (hoks r2 (List.mem_cons_of_mem r hr2))
          ?_ ?_ (hclean r2 (List.mem_cons_of_mem r hr2))
        · intro l hl1 hl2
          refine hWf1 l cfg.lineWidgetClassName ?_
          have := hdisj r2 hr2
          omega
        · refine hMf1 (rFrom r2) (rTo doc r2) ?_
          rw [Pos.lt_eq_false_of_line_lt
            (show (rTo doc r).line < (rFrom r2).line from hdisj r2 hr2)]
          rfl
      have IH := markRanges_from_clean cfg doc rf sp hrend hsp cur sel rs
        (markRange cfg s r).1 hdoc1 hcur1 hsel1
        (List.pairwise_cons.mp hpair).2
        (fun r2 hr2 => hoks r2 (List.mem_cons_of_mem r hr2)) hclean1 hwf1
      obtain ⟨herr2, ⟨hd2, hc2, hsl2, hv2⟩, hwf2, hcanon2, hWf2, hMf2⟩ := IH
      rw [hstep]
      refine ⟨herr2, ⟨by rw [hd2, hd1], by rw [hc2, hc1],
        by rw [hsl2, hsl1], by rw [hv2, hv1]⟩, hwf2, ?_, ?_, ?_⟩
      · intro r' hr'
        rcases List.mem_cons.mp hr' with h1 | h1
        · subst h1
          rw [hcur, hsel] at hcanon1
          refine Canon_frame hok ?_ ?_ hcanon1
          · intro l hl1 hl2
            refine hWf2 l cfg.lineWidgetClassName ?_
            intro r2 hr2
            have h3 := hdisj r2 hr2
            have h4 := hoks r2 (List.mem_cons_of_mem r' hr2)
            omega
          · refine hMf2 (rFrom r') (rTo doc r') ?_
            intro r2 hr2
            rw [Pos.lt_eq_false_of_line_lt
              (show (rTo doc r').line < (rFrom r2).line from hdisj r2 hr2),
              Bool.and_false]
        · exact hcanon2 r' h1
      · intro l cls2 hl
        rw [hWf2 l cls2 (fun r2 hr2 => hl r2 (List.mem_cons_of_mem r hr2)),
          hWf1 l cls2 (hl r (List.mem_cons_self r rs))]
      · intro f2 t2 hf
        rw [hMf2 f2 t2 (fun r2 hr2 => hf r2 (List.mem_cons_of_mem r hr2)),
          hMf1 f2 t2 (hf r (List.mem_cons_self r rs))]

/-- A second pass over blocks already in canonical state: the store does
not change, and unless some block sits in the `renderWhenEditing` rebuild
case the state comes back identically. -/
theorem markRanges_from_canon (cfg : Config E α) (doc : List String)
    (rf : Option (Nat × Nat) → Option (Nat × Nat) → String → Int → Int → α)
    (hrend : cfg.renderer = fun a b c d e => Except.ok (rf a b c d e))
    (cur : Pos) (sel : Option (Pos × Pos)) :
    ∀ (rs : List BlockRange) (s : EditorState α),
      s.doc = doc → s.cursor = cur → s.selection = sel →
      (∀ r ∈ rs, r.fromLine < r.toLine) →
      (∀ r ∈ rs, Canon cfg doc cur sel rf s r) →
      WFIds s →
      (markRanges cfg s rs).2 = none ∧
      StoreEq s (markRanges cfg s rs).1 ∧
      ((∀ r ∈ rs, isCursorOutRange cur (rFrom r) (rTo doc r) = true ∨
          cfg.renderWhenEditing = false) → (markRanges cfg s rs).1 = s)
  | [], s, _, _, _, _, _, _ => ⟨rfl, StoreEq.refl s, fun _ => rfl⟩
  | r :: rs, s, hdoc, hcur, hsel, hoks, hcanon, hwf => by
      have hok := hoks r (List.mem_cons_self r rs)
      have hch := hcanon r (List.mem_cons_self r rs)
      rw [← hcur, ← hsel] at hch
      obtain ⟨herr, hse, hex⟩ :=
        markRange_from_canon cfg doc rf hrend s r hdoc hok hch hwf
      have hpair1 : markRange cfg s r = ((markRange cfg s r).1, none) := by
        rw [← herr]
      have hstep : markRanges cfg s (r :: rs) =
          markRanges cfg (markRange cfg s r).1 rs := by
        conv_lhs => rw [markRanges]
        rw [hpair1]
      have hdoc1 : (markRange cfg s r).1.doc = doc := by rw [hse.1, hdoc]
      have hcur1 : (markRange cfg s r).1.cursor = cur := by
        rw [hse.2.1, hcur]
      have hsel1 : (markRange cfg s r).1.selection = sel := by
        rw [hse.2.2.1, hsel]
      have hcanon1 : ∀ r2 ∈ rs,
          Canon cfg doc cur sel rf (markRange cfg s r).1 r2 :=
        fun r2 hr2 =>
          Canon_storeEq hse (hcanon r2 (List.mem_cons_of_mem r hr2))
      have IH := markRanges_from_canon cfg doc rf hrend cur sel rs
        (markRange cfg s r).1 hdoc1 hcur1 hsel1
        (fun r2 hr2 => hoks r2 (List.mem_cons_of_mem r hr2)) hcanon1
        (WFIds_storeEq hse hwf)
      obtain ⟨herr2, hse2, hex2⟩ := IH
      rw [hstep]
      refine ⟨herr2, StoreEq_trans hse hse2, ?_⟩
      intro hcond
      have h1 : (markRange cfg s r).1 = s := by
        apply hex
        rcases hcond r (List.mem_cons_self r rs) with hA | hB
        · left
          rw [hcur]
          exact hA
        · right
          exact hB
      rw [hex2 (fun r2 hr2 => hcond r2 (List.mem_cons_of_mem r hr2))]
      exact h1

/-- C2 (amended): in viewport mode, with stateless (non-global) token
patterns, non-throwing renderers, and a well-formed store initially free of
engine decorations, calling `process` twice with no intervening document,
cursor, selection, or viewport change makes both calls succeed and leaves
identical decoration-store contents after each call; the second call
returns the state entirely unchanged — in particular performing no DOM
mutation — whenever no discovered block is being edited with
`renderWhenEditing` set.  In that remaining case the engine rebuilds the
widget content in place on every pass, so the second call does perform
additional DOM mutations: the counterexample refutes the frozen claim's
unrestricted "no additional DOM mutation". -/
theorem C2_second_pass_store_identical (cfg : Config E α)
    (rf : Option (Nat × Nat) → Option (Nat × Nat) → String → Int → Int → α)
    (sp : α)
    (hrend : cfg.renderer = fun a b c d e => Except.ok (rf a b c d e))
    (hsp : cfg.spanRenderer = fun _ => Except.ok sp)
    (hb : cfg.blockStartTokenRegexp.global = false)
    (he : cfg.blockEndTokenRegex.global = false)
    (s : EditorState α)
    (hM : ∀ m ∈ s.markers, (m.className == cfg.MARKER_CLASS_NAME) = false)
    (hW : ∀ w ∈ s.lineWidgets,
      (w.className == cfg.lineWidgetClassName) = false)
    (hwf : WFIds s) (liB liE liB2 liE2 : Nat) :
    (process cfg s liB liE false).2.2.2 = none ∧
    (process cfg (process cfg s liB liE false).1 liB2 liE2 false).2.2.2
      = none ∧
    decos (process cfg (process cfg s liB liE false).1 liB2 liE2 false).1
      = decos (process cfg s liB liE false).1 ∧
    ((∀ r ∈ (scan s.doc cfg.blockStartTokenRegexp cfg.blockEndTokenRegex
          s.viewport false 0 0).1,
        isCursorOutRange s.cursor (rFrom r) (rTo s.doc r) = true ∨
        cfg.renderWhenEditing = false) →
      (process cfg (process cfg s liB liE false).1 liB2 liE2 false).1
        = (process cfg s liB liE false).1) := by
  have hscan1 : scan s.doc cfg.blockStartTokenRegexp cfg.blockEndTokenRegex
      s.viewport false liB liE =
      ((scan s.doc cfg.blockStartTokenRegexp cfg.blockEndTokenRegex
        s.viewport false 0 0).1, liB, liE) :=
    scan_flagless_key hb he s.viewport false liB liE
  set R0 := (scan s.doc cfg.blockStartTokenRegexp cfg.blockEndTokenRegex
    s.viewport false 0 0).1 with hR0
  by_cases hemp : R0.isEmpty = true
  · have hp1 : process cfg s liB liE false = (s, liB, liE, none) := by
      simp only [process, hscan1, hemp, if_true]
    have hscan2 : scan s.doc cfg.blockStartTokenRegexp
        cfg.blockEndTokenRegex s.viewport false liB2 liE2 =
        (R0, liB2, liE2) :=
      scan_flagless_key hb he s.viewport false liB2 liE2
    have hp2 : process cfg s liB2 liE2 false = (s, liB2, liE2, none) := by
      simp only [process, hscan2, hemp, if_true]
    refine ⟨by rw [hp1], ?_, ?_, ?_⟩
    · show (process cfg (process cfg s liB liE false).1 liB2 liE2
          false).2.2.2 = none
      rw [hp1]
      show (process cfg s liB2 liE2 false).2.2.2 = none
      rw [hp2]
    · show decos (process cfg (process cfg s liB liE false).1 liB2 liE2
          false).1 = decos (process cfg s liB liE false).1
      rw [hp1]
      show decos (process cfg s liB2 liE2 false).1 = decos s
      rw [hp2]
    · intro _
      show (process cfg (process cfg s liB liE false).1 liB2 liE2
          false).1 = (process cfg s liB liE false).1
      rw [hp1]
      show (process cfg s liB2 liE2 false).1 = s
      rw [hp2]
  · have hemp2 : R0.isEmpty = false := by
      rwa [Bool.not_eq_true] at hemp
    have hwfscan := scan_viewport_wf s.doc cfg.blockStartTokenRegexp
      cfg.blockEndTokenRegex s.viewport 0 0
    have hcleanAll : ∀ r ∈ R0, cleanWin cfg s.doc s r := by
      intro r hr
      refine ⟨?_, ?_⟩
      · refine List.filter_eq_nil_iff.mpr ?_
        intro m hm
        have hmem : m ∈ s.markers :=
          List.mem_of_mem_filter hm
        simp [hM m hmem]
      · intro k hk
        refine List.find?_eq_none.mpr ?_
        intro w hw
        simp [hW w hw]
    obtain ⟨st1, err1, hmr1⟩ : ∃ a b, markRanges cfg s R0 = (a, b) :=
      ⟨_, _, rfl⟩
    have hpass1 := markRanges_from_clean cfg s.doc rf sp hrend hsp
      s.cursor s.selection R0 s rfl rfl rfl hwfscan.1 hwfscan.2 hcleanAll
      hwf
    obtain ⟨herr1, ⟨hd1, hc1, hsl1, hv1⟩, hwf1, hcanon1, _, _⟩ := hpass1
    have he1 : err1 = none := by
      rw [hmr1] at herr1
      exact herr1
    subst he1
    have hfst1 : (markRanges cfg s R0).1 = st1 := by rw [hmr1]
    rw [hfst1] at hd1 hc1 hsl1 hv1 hwf1 hcanon1
    have hp1 : process cfg s liB liE false = (st1, liB, liE, none) := by
      simp only [process, hscan1, hemp2, Bool.false_eq_true, if_false,
        hmr1]
    have hscan2 : scan st1.doc cfg.blockStartTokenRegexp
        cfg.blockEndTokenRegex st1.viewport false liB2 liE2 =
        (R0, liB2, liE2) := by
      rw [hd1, hv1]
      exact scan_flagless_key hb he s.viewport false liB2 liE2
    obtain ⟨st2, err2, hmr2⟩ : ∃ a b, markRanges cfg st1 R0 = (a, b) :=
      ⟨_, _, rfl⟩
    have hpass2 := markRanges_from_canon cfg s.doc rf hrend s.cursor
      s.selection R0 st1 hd1 hc1 hsl1 hwfscan.2 hcanon1 hwf1
    obtain ⟨herr2, hse2, hex2⟩ := hpass2
    have he2 : err2 = none := by
      rw [hmr2] at herr2
      exact herr2
    subst he2
    have hfst2 : (markRanges cfg st1 R0).1 = st2 := by rw [hmr2]
    rw [hfst2] at hse2 hex2
    have hp2 : process cfg st1 liB2 liE2 false = (st2, liB2, liE2, none)
        := by
      simp only [process, hscan2, hemp2, Bool.false_eq_true, if_false,
        hmr2]
    refine ⟨by rw [hp1], ?_, ?_, ?_⟩
    · show (process cfg (process cfg s liB liE false).1 liB2 liE2
          false).2.2.2 = none
      rw [hp1]
      show (process cfg st1 liB2 liE2 false).2.2.2 = none
      rw [hp2]
    · show decos (process cfg (process cfg s liB liE false).1 liB2 liE2
          false).1 = decos (process cfg s liB liE false).1
      rw [hp1]
      show decos (process cfg st1 liB2 liE2 false).1 = decos st1
      rw [hp2]
      show decos st2 = decos st1
      unfold decos
      rw [hse2.2.2.2.2.1, hse2.2.2.2.2.2.1]
    · intro hcond
      show (process cfg (process cfg s liB liE false).1 liB2 liE2
          false).1 = (process cfg s liB liE false).1
      rw [hp1]
      show (process cfg st1 liB2 liE2 false).1 = st1
      rw [hp2]
      show st2 = st1
      exact hex2 hcond

/-- C2 (witness): the amended theorem instantiated at the capturing
configuration with `renderWhenEditing` and the cursor on line 2, inside the
sample block. -/
theorem C2_second_pass_store_identical_witness :
    (process (captureCfg true) (cleanSampleState ⟨2, 0⟩) 0 0 false).2.2.2
      = none ∧
    (process (captureCfg true)
        (process (captureCfg true) (cleanSampleState ⟨2, 0⟩) 0 0 false).1
        0 0 false).2.2.2 = none ∧
    decos (process (captureCfg true)
        (process (captureCfg true) (cleanSampleState ⟨2, 0⟩) 0 0 false).1
        0 0 false).1
      = decos (process (captureCfg true) (cleanSampleState ⟨2, 0⟩) 0 0
          false).1 ∧
    ((∀ r ∈ (scan (cleanSampleState ⟨2, 0⟩).doc
          (captureCfg true).blockStartTokenRegexp
          (captureCfg true).blockEndTokenRegex
          (cleanSampleState ⟨2, 0⟩).viewport false 0 0).1,
        isCursorOutRange (cleanSampleState ⟨2, 0⟩).cursor (rFrom r)
          (rTo (cleanSampleState ⟨2, 0⟩).doc r) = true ∨
        (captureCfg true).renderWhenEditing = false) →
      (process (captureCfg true)
          (process (captureCfg true) (cleanSampleState ⟨2, 0⟩) 0 0
            false).1 0 0 false).1
        = (process (captureCfg true) (cleanSampleState ⟨2, 0⟩) 0 0
            false).1) :=
  C2_second_pass_store_identical (captureCfg true)
    (fun _ _ c _ _ => c) "span" rfl rfl rfl rfl
    (cleanSampleState ⟨2, 0⟩)
    (fun m hm => absurd hm (List.not_mem_nil m))
    (fun w hw => absurd hw (List.not_mem_nil w))
    (by unfold WFIds; decide)
    0 0 0 0

/-- C2 (counterexample): with `renderWhenEditing` set and the cursor inside
the sample block — no document, cursor, or selection change anywhere — the
first `process` run installs the block widget with one DOM mutation, and
the second run, while leaving the decoration store identical, rebuilds the
widget's content in place: the mutation counter goes from 1 to 3.  The
frozen claim's "the second call performs no additional DOM mutation (...no
rebuilt widget content)" fails for every configuration in this branch. -/
theorem C2_counterexample_second_pass_mutates :
    (process (captureCfg true) (cleanSampleState ⟨2, 0⟩) 0 0 false).1.muts
      = 1 ∧
    (process (captureCfg true)
      (process (captureCfg true) (cleanSampleState ⟨2, 0⟩) 0 0 false).1
      0 0 false).1.muts = 3 ∧
    decos (process (captureCfg true)
        (process (captureCfg true) (cleanSampleState ⟨2, 0⟩) 0 0 false).1
        0 0 false).1
      = decos (process (captureCfg true) (cleanSampleState ⟨2, 0⟩) 0 0
          false).1 := by
  decide

end Enhancement
